import Mathlib

/-!
# SeaLevel: the elevation pipeline of `appcontroller`

A shallow embedding of `src/sealevelalarm/appcontroller.cpp` and the properties of its
elevation-retrieval pipeline.

* `Double` is the C++ type `double` (IEEE-754 binary64) with the operations the program
  uses: `<`, `/`, conversion from decimal text and formatting.
* `QString`, `QJsonValue`, `QNetworkReply` model the Qt classes the program calls, as far as
  the program uses them.
* `appcontroller` is the object state; its member functions are state-passing functions with
  the names of the source.
-/

namespace SeaLevel

/-! ## The type `double` -/

/-- A `double`: NaN, a signed infinity, or the finite value `(-1)^neg * man * 2^exp`.
The values produced by the operations below are canonical binary64 values:
`man < 2^53`, `-1074 ≤ exp ≤ 971`, and `2^52 ≤ man` unless `exp = -1074`. -/
inductive Double where
  | nan
  | inf (neg : Bool)
  | fin (neg : Bool) (man : Nat) (exp : Int)
deriving DecidableEq, Repr

/-- Number of halvings that bring `n` below 2, i.e. `⌊log₂ n⌋` for `n ≥ 1`. -/
def ilog2Aux : Nat → Nat → Nat
  | 0, _ => 0
  | fuel + 1, n => if n < 2 then 0 else ilog2Aux fuel (n / 2) + 1

/-- The position of the leading bit of `n`. -/
def ilog2 (n : Nat) : Nat := ilog2Aux n n

/-- The quotient `p / q` rounded to the nearest integer, ties to even (the IEEE default
rounding direction). -/
def roundHalfEven (p q : Nat) : Nat :=
  let f := p / q
  let r := p % q
  if 2 * r < q then f
  else if q < 2 * r then f + 1
  else if f % 2 = 0 then f else f + 1

/-- Numerator of `p / (q * 2^e)`. -/
def scaleNum (p : Nat) (e : Int) : Nat := if e < 0 then p * 2 ^ (-e).toNat else p

/-- Denominator of `p / (q * 2^e)`. -/
def scaleDen (q : Nat) (e : Int) : Nat := if e < 0 then q else q * 2 ^ e.toNat

/-- The binary64 value nearest to `(-1)^neg * p / q` (round to nearest, ties to even),
with gradual underflow and overflow to infinity. -/
def Double.ofRatio (neg : Bool) (p q : Nat) : Double :=
  if p = 0 then .fin neg 0 (-1074)
  else
    let e0 : Int := (ilog2 p : Int) - (ilog2 q : Int) - 52
    let e1 : Int := if scaleNum p e0 < 2 ^ 52 * scaleDen q e0 then e0 - 1 else e0
    let e : Int := if e1 < -1074 then -1074 else e1
    let m := roundHalfEven (scaleNum p e) (scaleDen q e)
    let e2 : Int := if m = 2 ^ 53 then e + 1 else e
    let m2 : Nat := if m = 2 ^ 53 then 2 ^ 52 else m
    if 971 < e2 then .inf neg else .fin neg m2 e2

/-- The integer `man * 2^(exp - k)`, signed; used with `k ≤ exp`. -/
def Double.aligned (neg : Bool) (man : Nat) (exp k : Int) : Int :=
  let a : Int := (man * 2 ^ (exp - k).toNat : Nat)
  if neg then -a else a

/-- The C++ operator `<` on `double`: false whenever an operand is NaN, `-0.0` and `+0.0`
compare equal. -/
def Double.lt : Double → Double → Bool
  | .nan, _ => false
  | _, .nan => false
  | .inf a, .inf b => a && !b
  | .inf a, .fin _ _ _ => a
  | .fin _ _ _, .inf b => !b
  | .fin s m e, .fin t n f =>
    decide (Double.aligned s m e (min e f) < Double.aligned t n f (min e f))

/-- The C++ operator `/` on `double` (IEEE division, round to nearest even). -/
def Double.div : Double → Double → Double
  | .nan, _ => .nan
  | _, .nan => .nan
  | .inf _, .inf _ => .nan
  | .inf a, .fin b _ _ => .inf (xor a b)
  | .fin a _ _, .inf b => .fin (xor a b) 0 (-1074)
  | .fin a m e, .fin b n f =>
    if n = 0 then (if m = 0 then .nan else .inf (xor a b))
    else Double.ofRatio (xor a b) (m * 2 ^ (e - min e f).toNat) (n * 2 ^ (f - min e f).toNat)

/-- The value of the decimal literal `(-1)^neg * digits * 10^exp10` as a `double`, as a C++
compiler converts a floating literal. -/
def Double.ofDecimal (neg : Bool) (digits : Nat) (exp10 : Int) : Double :=
  if exp10 < 0 then Double.ofRatio neg digits (10 ^ (-exp10).toNat)
  else Double.ofRatio neg (digits * 10 ^ exp10.toNat) 1

/-- The rational number a finite `double` denotes; `none` for NaN and the infinities. -/
def Double.toRat : Double → Option ℚ
  | .fin neg man exp => some ((if neg then -1 else 1) * (man : ℚ) * (2 : ℚ) ^ exp)
  | _ => none

/-- The literal `1.0`. -/
def Double.one : Double := .fin false (2 ^ 52) (-52)

/-- The literal `2.0`. -/
def Double.two : Double := .fin false (2 ^ 52) (-51)

/-- The value `+0.0`. -/
def Double.zero : Double := .fin false 0 (-1074)

/-- The literal `41.161758`, the latitude the constructor requests. -/
def Double.portoLat : Double := Double.ofDecimal false 41161758 (-6)

/-- The literal `-8.583933`, the longitude the constructor requests. -/
def Double.portoLon : Double := Double.ofDecimal true 8583933 (-6)

/-! ## `QString` -/

/-- A `QString`, as its sequence of characters. -/
abbrev QString := List Char

/-- The single quote character. -/
def quoteChar : Char := Char.ofNat 39

/-- `QString::startsWith(s)`. -/
def QString.startsWith (s pre : QString) : Bool :=
  match pre, s with
  | [], _ => true
  | _ :: _, [] => false
  | p :: ps, c :: cs => p == c && QString.startsWith cs ps

/-- `QString::split(sep)` for a one-character separator, with the default
`KeepEmptyParts`: the fields between the occurrences of `sep`, never an empty list. -/
def QString.split (sep : Char) : QString → List QString
  | [] => [[]]
  | c :: cs =>
    if c = sep then [] :: QString.split sep cs
    else
      match QString.split sep cs with
      | [] => [[c]]
      | field :: fields => (c :: field) :: fields

/-- `QChar::isSpace` on the characters of the Latin-1 range that count as space. -/
def isSpace (c : Char) : Bool :=
  c = ' ' || c = '\t' || c = '\n' || c = '\r' || c = Char.ofNat 11 || c = Char.ofNat 12

/-- The string without leading and trailing space characters. -/
def QString.trimmed (s : QString) : QString :=
  ((s.dropWhile isSpace).reverse.dropWhile isSpace).reverse

/-- The number a run of decimal digits denotes, continuing from `acc`. -/
def digitsValue (acc : Nat) : List Char → Nat
  | [] => acc
  | c :: cs => digitsValue (acc * 10 + (c.toNat - 48)) cs

/-- An optional sign in front of a number: whether it is `-`, and the rest. -/
def takeSign : QString → Bool × QString
  | [] => (false, [])
  | c :: cs => if c = '-' then (true, cs) else if c = '+' then (false, cs) else (false, c :: cs)

/-- The exponent part `e[+-]digits` of a decimal number, `0` when there is none;
`none` when the text is not an exponent part. -/
def exponentPart : QString → Option Int
  | [] => some 0
  | c :: cs =>
    if c = 'e' || c = 'E' then
      let (neg, ds) := takeSign cs
      if ds ≠ [] ∧ ds.all Char.isDigit then
        some (if neg then -(digitsValue 0 ds : Int) else (digitsValue 0 ds : Int))
      else none
    else none

/-- The decimal number `[+-]digits[.digits][e[+-]digits]` as sign, digit string read as
a natural number, and power of ten; at least one digit is required. -/
def decimalParts (s : QString) : Option (Bool × Nat × Int) :=
  let (neg, s1) := takeSign s
  let ip := s1.takeWhile Char.isDigit
  let s2 := s1.dropWhile Char.isDigit
  let fp := match s2 with
    | '.' :: r => r.takeWhile Char.isDigit
    | _ => []
  let s3 := match s2 with
    | '.' :: r => r.dropWhile Char.isDigit
    | r => r
  if ip = [] ∧ fp = [] then none
  else
    match exponentPart s3 with
    | none => none
    | some ex => some (neg, digitsValue 0 (ip ++ fp), ex - (fp.length : Int))

/-- `QString::toDouble(&ok)`: `some d` when `ok` is set. The conversion is that of the
C locale: surrounding space is ignored, `nan`, `inf`, `+inf` and `-inf` are accepted in
any letter case, otherwise the text must be a decimal number; overflow to infinity and
underflow of a non-zero number to zero clear `ok`. -/
def QString.toDouble (s : QString) : Option Double :=
  let t := (QString.trimmed s).map Char.toLower
  if t = "nan".toList then some .nan
  else if t = "inf".toList ∨ t = "+inf".toList then some (.inf false)
  else if t = "-inf".toList then some (.inf true)
  else
    match decimalParts t with
    | none => none
    | some (neg, digits, exp10) =>
      match Double.ofDecimal neg digits exp10 with
      | .fin sg man ex => if man = 0 ∧ digits ≠ 0 then none else some (.fin sg man ex)
      | _ => none

/-- The least `j` from `j` on with `q ≤ p * 10^j`, searched for `fuel` steps. -/
def leadShift : Nat → Nat → Nat → Nat → Nat
  | 0, _, _, j => j
  | fuel + 1, p, q, j => if q ≤ p * 10 ^ j then j else leadShift fuel p q (j + 1)

/-- The position of the decimal point of `p / q > 0`: the `k` with
`10^(k-1) ≤ p / q < 10^k`. -/
def decimalPoint (p q : Nat) : Int :=
  if q ≤ p then ((Nat.toDigits 10 (p / q)).length : Int)
  else 1 - (leadShift 400 p q 1 : Int)

/-- The quotient `p / q` rounded to the nearest integer, ties upwards. -/
def roundHalfUp (p q : Nat) : Nat := (2 * p + q) / (2 * q)

/-- The digit string without its trailing zeros, keeping at least one digit. -/
def chopTrailingZeros (ds : List Char) : List Char :=
  match (ds.reverse.dropWhile (fun c => c = '0')).reverse with
  | [] => ['0']
  | r => r

/-- The six significant decimal digits of `p / q > 0` (trailing zeros chopped) and the
position of the decimal point. -/
def significantDigits (p q : Nat) : List Char × Int :=
  let k := decimalPoint p q
  let n := if k ≤ 6 then roundHalfUp (p * 10 ^ (6 - k).toNat) q
           else roundHalfUp p (q * 10 ^ (k - 6).toNat)
  if n = 10 ^ 6 then (['1'], k + 1) else (chopTrailingZeros (Nat.toDigits 10 n), k)

/-- The digits laid out in exponent form `d.ddddde±XX`, the exponent with at least two
digits. -/
def exponentForm (ds : List Char) (decpt : Int) : List Char :=
  let ex := decpt - 1
  let mant := match ds with
    | [] => ['0']
    | [d] => [d]
    | d :: rest => d :: '.' :: rest
  let exDigits := Nat.toDigits 10 ex.natAbs
  mant ++ ['e', if ex < 0 then '-' else '+'] ++
    (if exDigits.length < 2 then '0' :: exDigits else exDigits)

/-- The digits laid out in plain decimal form. -/
def decimalForm (ds : List Char) (decpt : Int) : List Char :=
  if decpt ≤ 0 then '0' :: '.' :: (List.replicate (-decpt).toNat '0' ++ ds)
  else if ds.length ≤ decpt.toNat then ds ++ List.replicate (decpt.toNat - ds.length) '0'
  else ds.take decpt.toNat ++ '.' :: ds.drop decpt.toNat

/-- `QString::number(double)` with its default arguments, format `g` and precision 6:
at most six significant digits, trailing zeros removed, exponent form when the decimal
point falls outside the digits by the rule of `%g`. -/
def QString.number : Double → QString
  | .nan => "nan".toList
  | .inf neg => if neg then "-inf".toList else "inf".toList
  | .fin neg man exp =>
    if man = 0 then ['0']
    else
      let (ds, decpt) := significantDigits (scaleNum man (-exp)) (scaleDen 1 (-exp))
      let body := if decpt ≤ -4 ∨ 6 < decpt then exponentForm ds decpt
                  else decimalForm ds decpt
      if neg then '-' :: body else body

/-! ## JSON (`QJsonValue`, `QJsonDocument`) -/

/-- A `QJsonValue`. An object is held as its members, each key once. -/
inductive QJsonValue where
  | null
  | bool (b : Bool)
  | double (d : Double)
  | string (s : QString)
  | array (items : List QJsonValue)
  | object (members : List (QString × QJsonValue))
  | undefined

/-- `QJsonValue::isObject`. -/
def QJsonValue.isObject : QJsonValue → Bool
  | .object _ => true
  | _ => false

/-- `QJsonValue::isArray`. -/
def QJsonValue.isArray : QJsonValue → Bool
  | .array _ => true
  | _ => false

/-- `QJsonValue::toArray`: the items, the empty array for a value that is no array. -/
def QJsonValue.toArray : QJsonValue → List QJsonValue
  | .array items => items
  | _ => []

/-- `QJsonValue::toObject`: the members, the empty object for a value that is no object. -/
def QJsonValue.toObject : QJsonValue → List (QString × QJsonValue)
  | .object members => members
  | _ => []

/-- `QJsonValue::toDouble()` with its default argument: the number, `0.0` for a value
that is not a number. -/
def QJsonValue.toDouble : QJsonValue → Double
  | .double d => d
  | _ => Double.zero

/-- `QJsonArray::at(i)`: the item, `Undefined` out of range. -/
def QJsonArray.at (items : List QJsonValue) (i : Nat) : QJsonValue :=
  match items.get? i with
  | some v => v
  | none => .undefined

/-- `QJsonObject::contains(key)`. -/
def QJsonObject.contains (members : List (QString × QJsonValue)) (key : QString) : Bool :=
  members.any (fun m => m.1 = key)

/-- `QJsonObject::value(key)`: the member, `Undefined` when the key is absent. -/
def QJsonObject.value (members : List (QString × QJsonValue)) (key : QString) : QJsonValue :=
  match members.find? (fun m => m.1 = key) with
  | some m => m.2
  | none => .undefined

/-- Adding a parsed member to an object: a key met again replaces the earlier member. -/
def QJsonObject.insert (members : List (QString × QJsonValue)) (key : QString)
    (v : QJsonValue) : List (QString × QJsonValue) :=
  if QJsonObject.contains members key then
    members.map (fun m => if m.1 = key then (key, v) else m)
  else members ++ [(key, v)]

/-- The parser skips space, tab, line feed and carriage return between tokens. -/
def eatSpace (s : List Char) : List Char :=
  s.dropWhile (fun c => c = ' ' || c = '\t' || c = '\n' || c = '\r')

/-- The value of a hexadecimal digit. -/
def hexValue (c : Char) : Option Nat :=
  if c.isDigit then some (c.toNat - 48)
  else if 'a'.toNat ≤ c.toNat ∧ c.toNat ≤ 'f'.toNat then some (c.toNat - 87)
  else if 'A'.toNat ≤ c.toNat ∧ c.toNat ≤ 'F'.toNat then some (c.toNat - 55)
  else none

/-- The characters of a JSON string up to its closing quote, escapes resolved, and the
input after the quote; `none` when the string does not end. An escape `\uXXXX` gives the
character with that code, an unknown escape gives the escaped character itself. -/
def parseString : List Char → Option (QString × List Char)
  | [] => none
  | '"' :: r => some ([], r)
  | '\\' :: 'u' :: a :: b :: c :: d :: r =>
    match hexValue a, hexValue b, hexValue c, hexValue d, parseString r with
    | some x, some y, some z, some w, some (str, rest) =>
      some (Char.ofNat (((x * 16 + y) * 16 + z) * 16 + w) :: str, rest)
    | _, _, _, _, _ => none
  | '\\' :: e :: r =>
    let ch := if e = 'b' then Char.ofNat 8 else if e = 'f' then Char.ofNat 12
      else if e = 'n' then '\n' else if e = 'r' then '\r' else if e = 't' then '\t'
      else e
    if e = 'u' then none
    else match parseString r with
      | some (str, rest) => some (ch :: str, rest)
      | none => none
  | ['\\'] => none
  | ch :: r =>
    match parseString r with
    | some (str, rest) => some (ch :: str, rest)
    | none => none

/-- The input without the character `c` at its start, if it starts with `c`. -/
def dropChar (c : Char) : List Char → List Char
  | [] => []
  | x :: r => if x = c then r else x :: r

/-- The input after an optional sign of an exponent. -/
def dropSign : List Char → List Char
  | [] => []
  | x :: r => if x = '-' ∨ x = '+' then r else x :: r

/-- The input after the integer part of a number: an optional `-`, then a single `0` or
a run of digits. -/
def numberIntEnd (s : List Char) : List Char :=
  match dropChar '-' s with
  | [] => []
  | x :: r => if x = '0' then r else (x :: r).dropWhile Char.isDigit

/-- The input after the fraction part `.digits`, if there is one. -/
def numberFracEnd : List Char → List Char
  | [] => []
  | x :: r => if x = '.' then r.dropWhile Char.isDigit else x :: r

/-- The input after the exponent part `e[+-]digits`, if there is one. -/
def numberExpEnd : List Char → List Char
  | [] => []
  | x :: r => if x = 'e' ∨ x = 'E' then (dropSign r).dropWhile Char.isDigit else x :: r

/-- The parser's number scanner: the input after the number that starts the input. -/
def numberEnd (s : List Char) : List Char := numberExpEnd (numberFracEnd (numberIntEnd s))

/-- The conversion `(double) n` of an `int`. -/
def Double.ofInt (n : Int) : Double := Double.ofRatio (decide (n < 0)) n.natAbs 1

/-- The value of a scanned number: a token without fraction and exponent that is an
`int` of magnitude below `2^25` is stored as that `int`, any other token is converted
by `toDouble`; a token `toDouble` rejects is an error. -/
def numberValue (token : List Char) (isInt : Bool) : Option Double :=
  let neg : Bool := decide (token.head? = some '-')
  let ds := dropChar '-' token
  if isInt = true ∧ ds ≠ [] ∧ digitsValue 0 ds < 2 ^ 25 then
    some (Double.ofInt (if neg then -(digitsValue 0 ds : Int) else (digitsValue 0 ds : Int)))
  else QString.toDouble token

/-- The number at the start of the input and the input after it; a number that ends the
input is an error. -/
def parseNumber (s : List Char) : Option (QJsonValue × List Char) :=
  let rest := numberEnd s
  let token := s.take (s.length - rest.length)
  let isInt := decide ((numberIntEnd s).length = rest.length)
  match rest with
  | [] => none
  | _ :: _ =>
    match numberValue token isInt with
    | some d => some (.double d, rest)
    | none => none

mutual

/-- The value at the start of the input (which has no leading space) and the input
after it. `level` is the nesting level, limited to 1024. -/
def parseValue : Nat → Nat → List Char → Option (QJsonValue × List Char)
  | 0, _, _ => none
  | fuel + 1, level, s =>
    match s with
    | [] => none
    | c :: r =>
      if c = 'n' then
        if 4 ≤ r.length ∧ r.take 3 = "ull".toList then some (.null, r.drop 3) else none
      else if c = 't' then
        if 4 ≤ r.length ∧ r.take 3 = "rue".toList then some (.bool true, r.drop 3) else none
      else if c = 'f' then
        if 5 ≤ r.length ∧ r.take 4 = "alse".toList then some (.bool false, r.drop 4) else none
      else if c = '"' then
        match parseString r with
        | some (str, r1) => some (.string str, r1)
        | none => none
      else if c = '[' then parseArray fuel level r
      else if c = '\x7b' then parseObject fuel level r
      else if c = ',' ∨ c = '\x7d' ∨ c = ']' then none
      else parseNumber s
termination_by structural fuel => fuel

/-- An array, the opening bracket already read. -/
def parseArray : Nat → Nat → List Char → Option (QJsonValue × List Char)
  | 0, _, _ => none
  | fuel + 1, level, s =>
    if 1024 < level + 1 then none
    else
      match eatSpace s with
      | [] => none
      | c :: r =>
        if c = ']' then some (.array [], eatSpace r)
        else
          match parseElements fuel (level + 1) (c :: r) with
          | some (items, r1) => some (.array items, r1)
          | none => none
termination_by structural fuel => fuel

/-- The items of a non-empty array up to and including the closing bracket. -/
def parseElements : Nat → Nat → List Char → Option (List QJsonValue × List Char)
  | 0, _, _ => none
  | fuel + 1, level, s =>
    match eatSpace s with
    | [] => none
    | c :: r =>
      match parseValue fuel level (c :: r) with
      | none => none
      | some (v, r1) =>
        match eatSpace r1 with
        | [] => none
        | t :: r2 =>
          if t = ']' then some ([v], eatSpace r2)
          else if t = ',' then
            match parseElements fuel level (eatSpace r2) with
            | some (vs, r3) => some (v :: vs, r3)
            | none => none
          else none
termination_by structural fuel => fuel

/-- An object, the opening brace already read. -/
def parseObject : Nat → Nat → List Char → Option (QJsonValue × List Char)
  | 0, _, _ => none
  | fuel + 1, level, s =>
    if 1024 < level + 1 then none
    else
      match eatSpace s with
      | [] => none
      | c :: r =>
        if c = '\x7d' then some (.object [], eatSpace r)
        else if c = '"' then
          match parseMembers fuel (level + 1) [] r with
          | some (members, r1) => some (.object members, r1)
          | none => none
        else none
termination_by structural fuel => fuel

/-- The members of a non-empty object, the opening quote of the next key already read,
up to and including the closing brace; `acc` holds the members read so far. -/
def parseMembers : Nat → Nat → List (QString × QJsonValue) → List Char →
    Option (List (QString × QJsonValue) × List Char)
  | 0, _, _, _ => none
  | fuel + 1, level, acc, s =>
    match parseString s with
    | none => none
    | some (key, r) =>
      match eatSpace r with
      | [] => none
      | colon :: r1 =>
        if colon = ':' then
          match eatSpace r1 with
          | [] => none
          | c :: r2 =>
            match parseValue fuel level (c :: r2) with
            | none => none
            | some (v, r3) =>
              match eatSpace r3 with
              | [] => none
              | t :: r4 =>
                if t = '\x7d' then some (QJsonObject.insert acc key v, eatSpace r4)
                else if t = ',' then
                  match eatSpace r4 with
                  | [] => none
                  | q :: r5 =>
                    if q = '"' then parseMembers fuel level (QJsonObject.insert acc key v) r5
                    else none
                else none
        else none
termination_by structural fuel => fuel

end

/-- `QJsonDocument::fromJson(json)`: the root value of the document, an object or an
array; `none` is the null document of a parse error. -/
def QJsonDocument.fromJson (json : List Char) : Option QJsonValue :=
  let fuel := 2 * json.length + 2
  let parsed := match eatSpace json with
    | [] => none
    | c :: r =>
      if c = '[' then parseArray fuel 0 r
      else if c = '\x7b' then parseObject fuel 0 r
      else none
  match parsed with
  | some (root, rest) => if eatSpace rest = [] then some root else none
  | none => none

/-! ## The controller -/

/-- A URL, as its text. -/
abbrev QUrl := QString

/-- The lines the program writes with `qDebug()`, one constructor for each statement. -/
inductive Debug where
  | googleNotImplemented
  | requestingElevation (lat lon : Double)
  | elevationChanged (elevation : Double)
  | sealevelAlarm
  | positionUpdated (lat lon : Double)
  | startRequest (url : QUrl)
  | httpError (errorString : QString)
  | replyError (errorString : QString)
  | requestFinished
  | elevationDataSource (datasrc_str : QString)
  | convertError (num_str : QString)
  | noElevation
  | noObject
  | noResult
  | otherData (data_string : QString)
deriving DecidableEq, Repr

/-- The ways a slot leaves defined behaviour. -/
inductive Fault where
  | nullPointer
  | danglingPointer
  | indexOutOfRange
deriving DecidableEq, Repr

/-- The outcome of a member function: a fault, or the new state and the lines written. -/
inductive Outcome (α : Type) where
  | fault (f : Fault)
  | ok (state : α) (out : List Debug)
deriving DecidableEq, Repr

/-- The enumeration `elevation_src`. -/
inductive elevation_src where
  | ELEVATION_SRC_OPENELEVATION
  | ELEVATION_SRC_GPSVISUALIZER
  | ELEVATION_SRC_GOOGLE
deriving DecidableEq, Repr

/-- A `QNetworkReply` as the slots see it: the URL requested, the bytes received and
not yet read, the redirection target attribute, the error string when `error()` is not
`NoError`, and whether `deleteLater()` was called on it. -/
structure QNetworkReply where
  url : QUrl
  buffer : QString
  redirectionTarget : Option QUrl
  errorString : Option QString
  deleteLater : Bool
deriving DecidableEq, Repr

/-- The members of `appcontroller` the pipeline uses. `reply` points into `replies`, the
reply objects `network_manager.get` has created, in the order of creation; `none` is
`nullptr`. -/
structure appcontroller where
  reply : Option Nat
  url : QUrl
  replies : List QNetworkReply
deriving DecidableEq, Repr

/-- `appcontroller::elevationChanged`: the lines it writes. The function reads and writes
no member. -/
def elevationChanged (elevation : Double) : List Debug :=
  Debug.elevationChanged elevation ::
    (if Double.lt elevation Double.two then [Debug.sealevelAlarm] else [])

/-- `appcontroller::startrequest`. Every reply it creates is connected to the slots
`httpFinished`, `httpError` and `httpReadyRead`. -/
def startrequest (self : appcontroller) (requestedUrl : QUrl) :
    appcontroller × List Debug :=
  ({ reply := some self.replies.length
     url := requestedUrl
     replies := self.replies ++ [⟨requestedUrl, [], none, none, false⟩] },
   [Debug.startRequest requestedUrl])

/-- The body of `appcontroller::requestElevation` for a value of its local `es`. -/
def requestElevationFrom (es : elevation_src) (self : appcontroller) (lat lon : Double) :
    appcontroller × List Debug :=
  match es with
  | .ELEVATION_SRC_OPENELEVATION =>
    let url_string := "https://api.open-elevation.com/api/v1/lookup?locations=".toList ++
      QString.number lat ++ ",".toList ++ QString.number lon
    let r := startrequest self url_string
    (r.1, Debug.requestingElevation lat lon :: r.2)
  | .ELEVATION_SRC_GPSVISUALIZER =>
    let url_string := "http://www.gpsvisualizer.com/elevation_data/elev2018.js?coords=".toList ++
      QString.number lat ++ ",".toList ++ QString.number lon
    let r := startrequest self url_string
    (r.1, Debug.requestingElevation lat lon :: r.2)
  | .ELEVATION_SRC_GOOGLE => (self, [Debug.googleNotImplemented])

/-- `appcontroller::requestElevation`: `es` is `ELEVATION_SRC_GPSVISUALIZER`. -/
def requestElevation (self : appcontroller) (lat lon : Double) : appcontroller × List Debug :=
  requestElevationFrom .ELEVATION_SRC_GPSVISUALIZER self lat lon

/-- The controller with no request issued: `reply(nullptr)`. -/
def appcontroller.idle : appcontroller := ⟨none, [], []⟩

/-- The constructor, as far as the pipeline goes: `reply(nullptr)` and the request of
the elevation of Porto, `requestElevation(41.161758, -8.583933)`. -/
def appcontroller.init : appcontroller × List Debug :=
  requestElevation appcontroller.idle Double.portoLat Double.portoLon

/-- `reply->readAll()`: the bytes available on the current reply, which are taken off
its buffer. -/
def appcontroller.readAll (self : appcontroller) : Except Fault (QString × appcontroller) :=
  match self.reply with
  | none => .error .nullPointer
  | some r =>
    match self.replies.get? r with
    | none => .error .danglingPointer
    | some rep =>
      .ok (rep.buffer, { self with replies := self.replies.set r { rep with buffer := [] } })

/-- Lines 231 to 248 of `httpReadyRead`: the callback-script branch. An index past the
end of a split result is the fault `indexOutOfRange`. -/
def callbackBranch (data_string : QString) : Except Fault (List Debug) :=
  let list := QString.split '(' data_string
  match list.get? 1 with
  | none => .error .indexOutOfRange
  | some list1 =>
    match (QString.split ',' list1).get? 0 with
    | none => .error .indexOutOfRange
    | some num_str =>
      match (QString.split ',' list1).get? 1 with
      | none => .error .indexOutOfRange
      | some field1 =>
        match (QString.split quoteChar field1).get? 1 with
        | none => .error .indexOutOfRange
        | some datasrc_str =>
          match QString.toDouble num_str with
          | some num =>
            .ok (Debug.elevationDataSource datasrc_str ::
              elevationChanged (Double.div Double.one num))
          | none => .ok [Debug.elevationDataSource datasrc_str, Debug.convertError num_str]

/-- Lines 250 to 278 of `httpReadyRead`: the JSON branch. -/
def jsonBranch (arr : QString) : List Debug :=
  match QJsonDocument.fromJson arr with
  | some (.object root) =>
    let results_value := QJsonObject.value root "results".toList
    if results_value.isArray then
      let result_array := results_value.toArray
      if 0 < result_array.length ∧ (QJsonArray.at result_array 0).isObject then
        if QJsonObject.contains (QJsonArray.at result_array 0).toObject "elevation".toList then
          elevationChanged
            (QJsonObject.value (QJsonArray.at result_array 0).toObject "elevation".toList).toDouble
        else [Debug.noElevation]
      else [Debug.noObject]
    else [Debug.noResult]
  | _ => []

/-- `appcontroller::httpReadyRead`. The bytes read are taken as text, for `data_string`
and for the JSON parser alike. -/
def httpReadyRead (self : appcontroller) : Outcome appcontroller :=
  match self.readAll with
  | .error f => .fault f
  | .ok (arr, self1) =>
    let data_string := arr
    if QString.startsWith data_string "LocalElevationCallback(".toList then
      match callbackBranch data_string with
      | .error f => .fault f
      | .ok out => .ok self1 out
    else if QString.startsWith data_string "\x7b".toList then
      .ok self1 (jsonBranch arr)
    else .ok self1 [Debug.otherData data_string]

/-- `appcontroller::httpError`. -/
def httpError (self : appcontroller) : Outcome appcontroller :=
  match self.reply with
  | none => .fault .nullPointer
  | some r =>
    match self.replies.get? r with
    | none => .fault .danglingPointer
    | some rep => .ok self [Debug.httpError (rep.errorString.getD [])]

/-- `appcontroller::httpFinished`. `resolved` is `QUrl::resolved`. -/
def httpFinished (resolved : QUrl → QUrl → QUrl) (self : appcontroller) :
    Outcome appcontroller :=
  match self.reply with
  | none => .fault .nullPointer
  | some r =>
    match self.replies.get? r with
    | none => .fault .danglingPointer
    | some rep =>
      let redirectionTarget := rep.redirectionTarget
      let out1 := match rep.errorString with
        | some e => [Debug.replyError e]
        | none => []
      let self1 : appcontroller :=
        { self with
          replies := self.replies.set r { rep with deleteLater := true }
          reply := none }
      match redirectionTarget with
      | some target =>
        let redirectedUrl := resolved self1.url target
        let r2 := startrequest self1 redirectedUrl
        .ok r2.1 (out1 ++ r2.2)
      | none => .ok self1 (out1 ++ [Debug.requestFinished])

/-- `appcontroller::onPositionUpdated`, for the coordinate of the position. -/
def onPositionUpdated (self : appcontroller) (lat lon : Double) : appcontroller × List Debug :=
  let r := requestElevation self lat lon
  (r.1, Debug.positionUpdated lat lon :: r.2)

/-! ## The event loop -/

/-- What reaches the controller from outside: a position update, and the signals of the
reply `r` of an earlier `get`: bytes arrived (`readyRead`), the request failed (`error`),
the request completed with or without a redirection target (`finished`). -/
inductive Event where
  | positionUpdated (lat lon : Double)
  | readyRead (r : Nat) (bytes : QString)
  | error (r : Nat) (errorString : QString)
  | finished (r : Nat) (redirectionTarget : Option QUrl)
deriving DecidableEq, Repr

/-- The reply `r` after the network has changed it with `f`, or `none` when the reply
does not exist or was handed to `deleteLater` and so emits no signal. -/
def appcontroller.signal (self : appcontroller) (r : Nat)
    (f : QNetworkReply → QNetworkReply) : Option appcontroller :=
  match self.replies.get? r with
  | none => none
  | some rep =>
    if rep.deleteLater then none
    else some { self with replies := self.replies.set r (f rep) }

/-- The event loop delivers one event: the slot connected to the signal runs. The slots
are member functions of the controller and do not receive the emitting reply. -/
def deliver (resolved : QUrl → QUrl → QUrl) (self : appcontroller) :
    Event → Outcome appcontroller
  | .positionUpdated lat lon =>
    let r := onPositionUpdated self lat lon
    .ok r.1 r.2
  | .readyRead r bytes =>
    match self.signal r (fun rep => { rep with buffer := rep.buffer ++ bytes }) with
    | none => .ok self []
    | some self1 => httpReadyRead self1
  | .error r errorString =>
    match self.signal r (fun rep => { rep with errorString := some errorString }) with
    | none => .ok self []
    | some self1 => httpError self1
  | .finished r redirectionTarget =>
    match self.signal r (fun rep => { rep with redirectionTarget := redirectionTarget }) with
    | none => .ok self []
    | some self1 => httpFinished resolved self1

/-- The event loop delivers the events in turn; a fault ends the run. -/
def run (resolved : QUrl → QUrl → QUrl) : appcontroller → List Event → Outcome appcontroller
  | self, [] => .ok self []
  | self, ev :: evs =>
    match deliver resolved self ev with
    | .fault f => .fault f
    | .ok self1 out1 =>
      match run resolved self1 evs with
      | .fault f => .fault f
      | .ok self2 out2 => .ok self2 (out1 ++ out2)

/-- The number of GET requests issued so far: `network_manager.get` creates one reply
for each. -/
def appcontroller.issued (self : appcontroller) : Nat := self.replies.length

/-- One request against a server. `server k url` is the answer to the `k`-th GET of the
controller, made for `url`: a redirection target or a final response. As long as a
request is outstanding its reply finishes with the answer of the server, for at most
`n` replies. -/
def follow (resolved : QUrl → QUrl → QUrl) (server : Nat → QUrl → Option QUrl) :
    Nat → appcontroller → Outcome appcontroller
  | 0, self => .ok self []
  | n + 1, self =>
    match self.reply with
    | none => .ok self []
    | some r =>
      match deliver resolved self (.finished r (server self.issued self.url)) with
      | .fault f => .fault f
      | .ok self1 out1 =>
        match follow resolved server n self1 with
        | .fault f => .fault f
        | .ok self2 out2 => .ok self2 (out1 ++ out2)

/-- A controller whose only request is outstanding with `body` received and not yet
read. -/
def appcontroller.receiving (body : QString) : appcontroller :=
  ⟨some 0, [], [⟨[], body, none, none, false⟩]⟩

/-- A server that answers every GET with a redirect to the same location. -/
def redirectForever : Nat → QUrl → Option QUrl := fun _ _ => some "/again".toList

/-- A server that answers the GET of a URL of `k + 1` characters with a redirect to its
last `k` characters, and the GET of the empty URL with a final response. -/
def redirectChain : Nat → QUrl → Option QUrl
  | _, [] => none
  | _, _ :: rest => some rest

/-- Redirect resolution for servers that send absolute targets. -/
def resolvedAbsolute : QUrl → QUrl → QUrl := fun _ target => target

/-! ## Notions used in the statements -/

/-- The lines of `elevationChanged` are the only ones that report an elevation or the
alarm. -/
def Debug.isEvaluation : Debug → Bool
  | .elevationChanged _ => true
  | .sealevelAlarm => true
  | _ => false

/-- The exponent part of a JSON number, `e` or `E`, an optional sign and digits, or
nothing, up to the end of the text. -/
def isJsonExp : List Char → Bool
  | [] => true
  | x :: r => (x = 'e' || x = 'E') && (dropSign r != [] && (dropSign r).all Char.isDigit)

/-- The optional fraction part, `.` and digits, and the optional exponent part of a
JSON number, up to the end of the text. -/
def isJsonFrac : List Char → Bool
  | [] => true
  | x :: r =>
    if x = '.' then r.takeWhile Char.isDigit != [] && isJsonExp (r.dropWhile Char.isDigit)
    else isJsonExp (x :: r)

/-- The text is a JSON number (RFC 8259): an optional minus sign, an integer part that
is `0` or digits that do not start with `0`, then an optional fraction and an optional
exponent. -/
def isJsonNumber (s : List Char) : Bool :=
  match dropChar '-' s with
  | [] => false
  | x :: r =>
    if x = '0' then isJsonFrac r
    else x.isDigit && isJsonFrac (r.dropWhile Char.isDigit)

/-- A request is outstanding: the reply slot points to a reply that exists and was not
handed to `deleteLater`. -/
def appcontroller.outstanding (self : appcontroller) : Bool :=
  match self.reply with
  | none => false
  | some r =>
    match self.replies.get? r with
    | none => false
    | some rep => !rep.deleteLater

/-- The number of redirect answers, up to the first final answer, among the `n`
answers the server gives from the `k`-th GET on, which is made for `url`. -/
def redirects (resolved : QUrl → QUrl → QUrl) (server : Nat → QUrl → Option QUrl) :
    Nat → Nat → QUrl → Nat
  | 0, _, _ => 0
  | n + 1, k, url =>
    match server k url with
    | none => 0
    | some target => redirects resolved server n (k + 1) (resolved url target) + 1

/-- The bytes the events deliver to the reply `r`. -/
def arrived (r : Nat) : List Event → QString
  | [] => []
  | .readyRead r1 bytes :: evs => if r1 = r then bytes ++ arrived r evs else arrived r evs
  | _ :: evs => arrived r evs

/-- The reply `r0` is superseded: it exists, holds `buffer` unread, was not handed to
`deleteLater`, and the reply slot is null or points to a reply created after it. -/
def appcontroller.superseded (self : appcontroller) (r0 : Nat) (buffer : QString) : Prop :=
  (∀ r, self.reply = some r → r0 < r ∧ r < self.replies.length) ∧
  ∃ rep, self.replies.get? r0 = some rep ∧ rep.buffer = buffer ∧ rep.deleteLater = false

/-! # Theorems -/

/-! ## Comparison of doubles -/

theorem Double.aligned_cast (s : Bool) (m : Nat) (e k : Int) (h : k ≤ e) :
    ((Double.aligned s m e k : Int) : ℚ) =
      ((if s then -1 else 1) * (m : ℚ) * (2 : ℚ) ^ e) / (2 : ℚ) ^ k := by
  have hp : ((2 : ℚ) ^ (e - k).toNat) = (2 : ℚ) ^ e / (2 : ℚ) ^ k := by
    rw [← zpow_natCast, Int.toNat_of_nonneg (by omega), zpow_sub₀ (by norm_num)]
  unfold Double.aligned
  cases s <;> simp [hp] <;> ring

/-- The operator `<` on finite doubles is the order of the rationals they denote. -/
theorem Double.lt_fin_iff (s : Bool) (m : Nat) (e : Int) (t : Bool) (n : Nat) (f : Int) :
    Double.lt (.fin s m e) (.fin t n f) = true ↔
      ((if s then -1 else 1) * (m : ℚ) * (2 : ℚ) ^ e) <
        ((if t then -1 else 1) * (n : ℚ) * (2 : ℚ) ^ f) := by
  have hk : (0 : ℚ) < (2 : ℚ) ^ (min e f) := zpow_pos (by norm_num) _
  simp only [Double.lt, decide_eq_true_eq]
  rw [← Int.cast_lt (R := ℚ), Double.aligned_cast _ _ _ _ (min_le_left e f),
    Double.aligned_cast _ _ _ _ (min_le_right e f), div_lt_div_iff_of_pos_right hk]

/-- C1: `elevationChanged` raises the alarm exactly for the elevations below `2.0`: for
minus infinity and for the finite doubles that denote a rational below 2, which is the
operator `<` of C++ (never for NaN); `1.9` gives the alarm, `2.0` and `2.1` give none.
The lines written are a function of the elevation alone. -/
theorem elevationChanged_alarm_iff :
    (∀ e : Double, Debug.sealevelAlarm ∈ elevationChanged e ↔
      (e = Double.inf true ∨ ∃ q : ℚ, e.toRat = some q ∧ q < 2)) ∧
    (∀ e : Double, Debug.sealevelAlarm ∈ elevationChanged e ↔ Double.lt e Double.two = true) ∧
    elevationChanged (Double.ofDecimal false 19 (-1)) =
      [Debug.elevationChanged (Double.ofDecimal false 19 (-1)), Debug.sealevelAlarm] ∧
    elevationChanged Double.two = [Debug.elevationChanged Double.two] ∧
    elevationChanged (Double.ofDecimal false 21 (-1)) =
      [Debug.elevationChanged (Double.ofDecimal false 21 (-1))] := by
  have key : ∀ e : Double, Debug.sealevelAlarm ∈ elevationChanged e ↔
      Double.lt e Double.two = true := by
    intro e
    unfold elevationChanged
    by_cases h : Double.lt e Double.two = true <;> simp [h]
  refine ⟨?_, key, by decide, by decide, by decide⟩
  intro e
  rw [key]
  cases e with
  | nan => simp [Double.lt, Double.toRat]
  | inf neg => cases neg <;> simp [Double.lt, Double.two, Double.toRat]
  | fin s m x =>
    have h2 : ((if false = true then -1 else 1) * ((2 ^ 52 : ℕ) : ℚ) * (2 : ℚ) ^ (-51 : ℤ)) = 2 := by
      norm_num [zpow_neg]
    rw [Double.two, Double.lt_fin_iff, h2]
    simp [Double.toRat]

/-! ## Splitting -/

theorem QString.split_ne_nil (sep : Char) (s : QString) : QString.split sep s ≠ [] := by
  cases s with
  | nil => simp [QString.split]
  | cons c cs =>
    unfold QString.split
    split
    · simp
    · split <;> simp

/-- The first field of a split is the text before the first separator. -/
theorem QString.split_append_sep (sep : Char) (a b : QString) (h : sep ∉ a) :
    QString.split sep (a ++ sep :: b) = a :: QString.split sep b := by
  induction a with
  | nil => simp [QString.split]
  | cons c cs ih =>
    have hc : c ≠ sep := fun e => h (by simp [e])
    have hcs : sep ∉ cs := fun e => h (by simp [e])
    have e := ih hcs
    simp only [List.cons_append, QString.split, if_neg hc, List.append_eq, e]

/-- The first field of a split. -/
theorem QString.split_head (sep : Char) (s : QString) :
    (QString.split sep s).get? 0 = some (s.takeWhile (fun c => c ≠ sep)) := by
  induction s with
  | nil => simp [QString.split]
  | cons c cs ih =>
    unfold QString.split
    by_cases hc : c = sep
    · simp [hc]
    · rw [if_neg hc]
      cases hs : QString.split sep cs with
      | nil => exact absurd hs (QString.split_ne_nil sep cs)
      | cons f fs =>
        rw [hs] at ih
        simp at ih
        simp [hc, ih]

theorem QString.startsWith_iff (s pre : QString) :
    QString.startsWith s pre = true ↔ ∃ rest, s = pre ++ rest := by
  induction pre generalizing s with
  | nil => cases s <;> simp [QString.startsWith]
  | cons p ps ih =>
    cases s with
    | nil => simp [QString.startsWith]
    | cons c cs =>
      simp only [QString.startsWith, Bool.and_eq_true, beq_iff_eq, ih, List.cons_append,
        List.cons.injEq]
      constructor
      · rintro ⟨rfl, rest, rfl⟩
        exact ⟨rest, rfl, rfl⟩
      · rintro ⟨rest, rfl, rfl⟩
        exact ⟨rfl, rest, rfl⟩

theorem takeWhile_append_of_all (p : Char → Bool) (a b : List Char) (h : ∀ x ∈ a, p x = true) :
    (a ++ b).takeWhile p = a ++ b.takeWhile p := by
  induction a with
  | nil => rfl
  | cons c cs ih =>
    have hc : p c = true := h c (by simp)
    have hcs : ∀ x ∈ cs, p x = true := fun x hx => h x (by simp [hx])
    simp [List.takeWhile, hc, ih hcs]

theorem all_ne_of_not_mem (sep : Char) (a : List Char) (h : sep ∉ a) :
    ∀ x ∈ a, (decide (x ≠ sep)) = true := by
  intro x hx
  simp only [ne_eq, decide_not, Bool.not_eq_true', decide_eq_false_iff_not]
  rintro rfl
  exact h hx

/-- The callback-script branch on a body of the shape
`LocalElevationCallback(<num_str>,'<label>'<tail>`: the number text is the text between
the parenthesis and the first comma, the label the text between the first pair of quotes
after that comma. -/
theorem callbackBranch_shape (num_str label tail : QString)
    (h1 : '(' ∉ num_str) (h2 : ',' ∉ num_str)
    (h3 : '(' ∉ label) (h4 : ',' ∉ label) (h5 : quoteChar ∉ label) :
    callbackBranch ("LocalElevationCallback(".toList ++ num_str ++
        ',' :: quoteChar :: label ++ quoteChar :: tail) =
      match QString.toDouble num_str with
      | some num =>
        .ok (Debug.elevationDataSource label :: elevationChanged (Double.div Double.one num))
      | none => .ok [Debug.elevationDataSource label, Debug.convertError num_str] := by
  have hcb : "LocalElevationCallback(".toList = "LocalElevationCallback".toList ++ ['('] := by
    decide
  have hq1 : quoteChar ≠ '(' := by decide
  have hq2 : quoteChar ≠ ',' := by decide
  have e1 : QString.split '(' ("LocalElevationCallback(".toList ++ num_str ++
        ',' :: quoteChar :: label ++ quoteChar :: tail) =
      "LocalElevationCallback".toList ::
        QString.split '(' (num_str ++ ',' :: quoteChar :: label ++ quoteChar :: tail) := by
    rw [hcb]
    simp only [List.append_assoc, List.singleton_append, List.cons_append, List.nil_append]
    rw [QString.split_append_sep _ _ _ (by decide)]
  have e2 : (num_str ++ ',' :: quoteChar :: label ++ quoteChar :: tail).takeWhile
        (fun c => decide (c ≠ '(')) =
      num_str ++ ',' :: (quoteChar :: label ++
        quoteChar :: tail.takeWhile (fun c => decide (c ≠ '('))) := by
    have : num_str ++ ',' :: quoteChar :: label ++ quoteChar :: tail =
        (num_str ++ ',' :: quoteChar :: label ++ [quoteChar]) ++ tail := by simp
    rw [this, takeWhile_append_of_all]
    · simp
    · intro x hx
      simp only [List.append_assoc, List.cons_append, List.mem_append, List.mem_cons,
        List.mem_singleton, List.not_mem_nil, or_false] at hx
      rcases hx with hx | rfl | rfl | hx | rfl
      · exact all_ne_of_not_mem _ _ h1 x hx
      · decide
      · decide
      · exact all_ne_of_not_mem _ _ h3 x hx
      · decide
  have e3 : (quoteChar :: label ++ quoteChar :: tail.takeWhile (fun c => decide (c ≠ '('))).takeWhile
        (fun c => decide (c ≠ ',')) =
      quoteChar :: (label ++ quoteChar ::
        (tail.takeWhile (fun c => decide (c ≠ '('))).takeWhile (fun c => decide (c ≠ ','))) := by
    have : quoteChar :: label ++ quoteChar :: tail.takeWhile (fun c => decide (c ≠ '(')) =
        (quoteChar :: label ++ [quoteChar]) ++ tail.takeWhile (fun c => decide (c ≠ '(')) := by
      simp
    rw [this, takeWhile_append_of_all]
    · simp
    · intro x hx
      simp only [List.cons_append, List.mem_cons, List.mem_append, List.mem_singleton,
        List.not_mem_nil, or_false] at hx
      rcases hx with rfl | hx | rfl
      · decide
      · exact all_ne_of_not_mem _ _ h4 x hx
      · decide
  unfold callbackBranch
  simp only [e1, List.get?_cons_succ, QString.split_head, e2,
    QString.split_append_sep _ _ _ h2, List.get?_cons_zero, e3]
  have e4 : ∀ t : QString, QString.split quoteChar (quoteChar :: (label ++ quoteChar :: t)) =
      [] :: label :: QString.split quoteChar t := by
    intro t
    have := QString.split_append_sep quoteChar [] (label ++ quoteChar :: t) (by simp)
    simp only [List.nil_append] at this
    rw [this, QString.split_append_sep _ _ _ h5]
  simp only [e4, List.get?_cons_succ, List.get?_cons_zero]

/-! ## The slot `httpReadyRead` -/

/-- The slot in terms of the bytes it reads. -/
theorem httpReadyRead_of_readAll (self self1 : appcontroller) (body : QString)
    (hread : self.readAll = .ok (body, self1)) :
    httpReadyRead self =
      if QString.startsWith body "LocalElevationCallback(".toList then
        match callbackBranch body with
        | .error f => .fault f
        | .ok out => .ok self1 out
      else if QString.startsWith body "\x7b".toList then .ok self1 (jsonBranch body)
      else .ok self1 [Debug.otherData body] := by
  unfold httpReadyRead
  rw [hread]

theorem not_callback_of_brace (body : QString)
    (h : QString.startsWith body "\x7b".toList = true) :
    QString.startsWith body "LocalElevationCallback(".toList = false := by
  rw [QString.startsWith_iff] at h
  obtain ⟨rest, rfl⟩ := h
  rfl

/-- C2 (amended): for the identifier `LocalElevationCallback`, a body
`LocalElevationCallback(<num_str>,'<label>'<tail>` whose first field `num_str` converts to
the number `num` makes the slot forward exactly the quotient `1.0 / num` to
`elevationChanged`. -/
theorem httpReadyRead_callback_reciprocal (self self1 : appcontroller)
    (num_str label tail : QString) (num : Double)
    (hread : self.readAll = .ok ("LocalElevationCallback(".toList ++ num_str ++
        ',' :: quoteChar :: label ++ quoteChar :: tail, self1))
    (h1 : '(' ∉ num_str) (h2 : ',' ∉ num_str)
    (h3 : '(' ∉ label) (h4 : ',' ∉ label) (h5 : quoteChar ∉ label)
    (hnum : QString.toDouble num_str = some num) :
    httpReadyRead self = .ok self1 (Debug.elevationDataSource label ::
      elevationChanged (Double.div Double.one num)) := by
  have hs : QString.startsWith ("LocalElevationCallback(".toList ++ num_str ++
      ',' :: quoteChar :: label ++ quoteChar :: tail) "LocalElevationCallback(".toList = true :=
    (QString.startsWith_iff _ _).2
      ⟨num_str ++ (',' :: quoteChar :: label ++ quoteChar :: tail), List.append_assoc _ _ _⟩
  rw [httpReadyRead_of_readAll _ _ _ hread, if_pos hs,
    callbackBranch_shape _ _ _ h1 h2 h3 h4 h5, hnum]

/-- C2, at the body `LocalElevationCallback(0.5,'srtm30')`: the field `0.5` converts to
the double `0.5` and the elevation forwarded is `2.0`, for which no alarm is raised. -/
theorem httpReadyRead_callback_reciprocal_witness :
    QString.toDouble "0.5".toList = some (Double.ofDecimal false 5 (-1)) ∧
    httpReadyRead (appcontroller.receiving "LocalElevationCallback(0.5,'srtm30')".toList) =
      .ok (appcontroller.receiving [])
        [Debug.elevationDataSource "srtm30".toList, Debug.elevationChanged Double.two] :=
  ⟨by decide,
   (httpReadyRead_callback_reciprocal
    (appcontroller.receiving "LocalElevationCallback(0.5,'srtm30')".toList)
    (appcontroller.receiving []) "0.5".toList "srtm30".toList ")".toList
    (Double.ofDecimal false 5 (-1))
    (by rfl) (by decide) (by decide) (by decide) (by decide) (by decide) (by decide)).trans
    (by decide)⟩

/-- C2 as stated fails for an identifier other than `LocalElevationCallback`: the body
`Foo(0.5,'srtm30')` is reported as other data and no elevation is forwarded. -/
theorem httpReadyRead_Foo_other_data :
    httpReadyRead (appcontroller.receiving "Foo(0.5,'srtm30')".toList) =
      .ok (appcontroller.receiving []) [Debug.otherData "Foo(0.5,'srtm30')".toList] := by
  decide

/-- C3 as stated fails: for the body `LocalElevationCallback(0,'srtm30')` the slot
reports no error and forwards the elevation `+infinity` to `elevationChanged`. -/
theorem httpReadyRead_zero_forwards_infinity :
    httpReadyRead (appcontroller.receiving "LocalElevationCallback(0,'srtm30')".toList) =
      .ok (appcontroller.receiving [])
        [Debug.elevationDataSource "srtm30".toList, Debug.elevationChanged (Double.inf false)] := by
  decide

/-- C3 (amended): a callback-script body whose first field converts to a zero makes the
slot forward the quotient `1.0 / 0`, the infinity with the sign of the zero, to
`elevationChanged`; no error is reported. For `+0.0` the elevation is `+infinity` and no
alarm is raised, for `-0.0` it is `-infinity` and the alarm is raised. -/
theorem httpReadyRead_callback_zero (self self1 : appcontroller)
    (num_str label tail : QString) (neg : Bool) (exp : Int)
    (hread : self.readAll = .ok ("LocalElevationCallback(".toList ++ num_str ++
        ',' :: quoteChar :: label ++ quoteChar :: tail, self1))
    (h1 : '(' ∉ num_str) (h2 : ',' ∉ num_str)
    (h3 : '(' ∉ label) (h4 : ',' ∉ label) (h5 : quoteChar ∉ label)
    (hnum : QString.toDouble num_str = some (.fin neg 0 exp)) :
    httpReadyRead self = .ok self1 (Debug.elevationDataSource label ::
      Debug.elevationChanged (Double.inf neg) ::
        (if neg = true then [Debug.sealevelAlarm] else [])) := by
  have hs : QString.startsWith ("LocalElevationCallback(".toList ++ num_str ++
      ',' :: quoteChar :: label ++ quoteChar :: tail) "LocalElevationCallback(".toList = true :=
    (QString.startsWith_iff _ _).2
      ⟨num_str ++ (',' :: quoteChar :: label ++ quoteChar :: tail), List.append_assoc _ _ _⟩
  rw [httpReadyRead_of_readAll _ _ _ hread, if_pos hs,
    callbackBranch_shape _ _ _ h1 h2 h3 h4 h5, hnum]
  cases neg <;> rfl

/-- C3 (amended), at the body `LocalElevationCallback(-0,'srtm30')`: the field converts
to `-0.0` and the elevation forwarded is `-infinity`, with the alarm. -/
theorem httpReadyRead_callback_zero_witness :
    QString.toDouble "-0".toList = some (Double.fin true 0 (-1074)) ∧
    httpReadyRead (appcontroller.receiving "LocalElevationCallback(-0,'srtm30')".toList) =
      .ok (appcontroller.receiving [])
        [Debug.elevationDataSource "srtm30".toList, Debug.elevationChanged (Double.inf true),
          Debug.sealevelAlarm] :=
  ⟨by decide,
   httpReadyRead_callback_zero
    (appcontroller.receiving "LocalElevationCallback(-0,'srtm30')".toList)
    (appcontroller.receiving []) "-0".toList "srtm30".toList ")".toList true (-1074)
    (by rfl) (by decide) (by decide) (by decide) (by decide) (by decide) (by decide)⟩

/-- C5: on `LocalElevationCallback(0.5)` and on `LocalElevationCallback(0.5,srtm30)` the
slot indexes a split result past its end; on `LocalElevationCallback(abc,'srtm30')`, the
case the code does check, it reports the conversion error. -/
theorem httpReadyRead_malformed_index_out_of_range :
    httpReadyRead (appcontroller.receiving "LocalElevationCallback(0.5)".toList) =
      .fault Fault.indexOutOfRange ∧
    httpReadyRead (appcontroller.receiving "LocalElevationCallback(0.5,srtm30)".toList) =
      .fault Fault.indexOutOfRange ∧
    QString.split ',' "0.5)".toList = ["0.5)".toList] ∧
    QString.split quoteChar "srtm30)".toList = ["srtm30)".toList] ∧
    httpReadyRead (appcontroller.receiving "LocalElevationCallback(abc,'srtm30')".toList) =
      .ok (appcontroller.receiving [])
        [Debug.elevationDataSource "srtm30".toList, Debug.convertError "abc".toList] := by
  decide

/-- C6: when the body does not start with the callback identifier and is not a JSON
object with a `results` array whose first item is an object with an `elevation` member,
the slot returns without a call of `elevationChanged`: it writes no elevation and no
alarm. -/
theorem httpReadyRead_parse_failure_silent (self self1 : appcontroller) (body : QString)
    (hread : self.readAll = .ok (body, self1))
    (hcb : QString.startsWith body "LocalElevationCallback(".toList = false)
    (hfail : QString.startsWith body "\x7b".toList = false ∨
      (∀ root, QJsonDocument.fromJson body ≠ some (.object root)) ∨
      ∃ root, QJsonDocument.fromJson body = some (.object root) ∧
        ((QJsonObject.value root "results".toList).isArray = false ∨
         (QJsonObject.value root "results".toList).toArray = [] ∨
         (QJsonArray.at (QJsonObject.value root "results".toList).toArray 0).isObject = false ∨
         QJsonObject.contains
           (QJsonArray.at (QJsonObject.value root "results".toList).toArray 0).toObject
           "elevation".toList = false)) :
    ∃ out, httpReadyRead self = .ok self1 out ∧ ∀ d ∈ out, d.isEvaluation = false := by
  rw [httpReadyRead_of_readAll _ _ _ hread, hcb]
  simp only [Bool.false_eq_true, if_false]
  rcases hfail with h | h | ⟨root, hdoc, h⟩
  · exact ⟨_, by rw [h]; rfl, by simp [Debug.isEvaluation]⟩
  · by_cases hb : QString.startsWith body "\x7b".toList = true
    · refine ⟨_, by rw [if_pos hb], ?_⟩
      unfold jsonBranch
      split
      · rename_i root hdoc
        exact absurd hdoc (h root)
      · simp
    · exact ⟨_, by rw [if_neg hb], by simp [Debug.isEvaluation]⟩
  · by_cases hb : QString.startsWith body "\x7b".toList = true
    · refine ⟨_, by rw [if_pos hb], ?_⟩
      unfold jsonBranch
      rw [hdoc]
      intro d hd
      dsimp only at hd
      split_ifs at hd with ha hc he
      · exfalso
        rcases h with h | h | h | h
        · rw [h] at ha
          exact Bool.false_ne_true ha
        · rw [h] at hc
          exact Nat.lt_irrefl _ hc.1
        · rw [h] at hc
          exact Bool.false_ne_true hc.2
        · rw [h] at he
          exact Bool.false_ne_true he
      · rw [List.mem_singleton] at hd
        subst hd
        rfl
      · rw [List.mem_singleton] at hd
        subst hd
        rfl
      · rw [List.mem_singleton] at hd
        subst hd
        rfl
    · exact ⟨_, by rw [if_neg hb], by simp [Debug.isEvaluation]⟩

/-- C6, at the body `not json not callback`. -/
theorem httpReadyRead_parse_failure_silent_witness :
    ∃ out, httpReadyRead (appcontroller.receiving "not json not callback".toList) =
      .ok (appcontroller.receiving []) out ∧ ∀ d ∈ out, d.isEvaluation = false :=
  httpReadyRead_parse_failure_silent
    (appcontroller.receiving "not json not callback".toList) (appcontroller.receiving [])
    "not json not callback".toList (by rfl) (by decide) (Or.inl (by decide))

/-- The elevation `0.0` is below the threshold. -/
theorem elevationChanged_zero :
    elevationChanged Double.zero = [Debug.elevationChanged Double.zero, Debug.sealevelAlarm] := by
  have h : Double.lt Double.zero Double.two = true := by
    rw [Double.zero, Double.two, Double.lt_fin_iff]
    norm_num [zpow_neg]
  simp [elevationChanged, h]

/-- C10: when the first item of `results` is an object whose `elevation` member is not a
number, the slot forwards `toDouble()` of it, which is `0.0`, and `elevationChanged`
raises the alarm. -/
theorem httpReadyRead_nonnumeric_elevation (self self1 : appcontroller) (body : QString)
    (root members : List (QString × QJsonValue)) (rest : List QJsonValue)
    (hread : self.readAll = .ok (body, self1))
    (hbrace : QString.startsWith body "\x7b".toList = true)
    (hdoc : QJsonDocument.fromJson body = some (.object root))
    (hres : QJsonObject.value root "results".toList = .array (.object members :: rest))
    (hcont : QJsonObject.contains members "elevation".toList = true)
    (hval : ∀ d, QJsonObject.value members "elevation".toList ≠ .double d) :
    httpReadyRead self =
      .ok self1 [Debug.elevationChanged Double.zero, Debug.sealevelAlarm] := by
  rw [httpReadyRead_of_readAll _ _ _ hread, not_callback_of_brace _ hbrace, if_pos hbrace]
  simp only [Bool.false_eq_true, if_false]
  have hz : (QJsonObject.value members "elevation".toList).toDouble = Double.zero := by
    cases hv : QJsonObject.value members "elevation".toList <;>
      first | rfl | exact absurd hv (hval _)
  unfold jsonBranch
  rw [hdoc]
  dsimp only
  rw [hres]
  have e0 : QJsonArray.at (QJsonValue.array (QJsonValue.object members :: rest)).toArray 0 =
      QJsonValue.object members := rfl
  have e1 : (QJsonValue.object members).toObject = members := rfl
  have e2 : (QJsonValue.array (QJsonValue.object members :: rest)).isArray = true := rfl
  have e3 : 0 < (QJsonValue.array (QJsonValue.object members :: rest)).toArray.length ∧
      (QJsonValue.object members).isObject = true := ⟨Nat.succ_pos _, rfl⟩
  rw [e0, if_pos e2, if_pos e3, e1, if_pos hcont, hz, elevationChanged_zero]

/-- C10, at the body `{"results":[{"elevation":"n/a"}]}`. -/
theorem httpReadyRead_nonnumeric_elevation_witness :
    httpReadyRead
        (appcontroller.receiving "\x7b\"results\":[\x7b\"elevation\":\"n/a\"\x7d]\x7d".toList) =
      .ok (appcontroller.receiving []) [Debug.elevationChanged Double.zero, Debug.sealevelAlarm] :=
  httpReadyRead_nonnumeric_elevation
    (appcontroller.receiving "\x7b\"results\":[\x7b\"elevation\":\"n/a\"\x7d]\x7d".toList)
    (appcontroller.receiving [])
    "\x7b\"results\":[\x7b\"elevation\":\"n/a\"\x7d]\x7d".toList
    [("results".toList, .array [.object [("elevation".toList, .string "n/a".toList)]])]
    [("elevation".toList, .string "n/a".toList)] []
    (by rfl) (by decide) (by rfl) (by rfl) (by decide)
    (fun d h => QJsonValue.noConfusion h)

/-! ## The request URL -/

/-- C7: the request the constructor makes for `41.161758, -8.583933` goes to a URL that
ends in `coords=41.1618,-8.58393`: `QString::number` keeps six significant digits, and
the texts in the URL denote other doubles than the coordinates requested. -/
theorem requestElevation_porto_loses_digits :
    appcontroller.init.1.url =
      "http://www.gpsvisualizer.com/elevation_data/elev2018.js?coords=41.1618,-8.58393".toList ∧
    appcontroller.init.2 =
      [Debug.requestingElevation Double.portoLat Double.portoLon,
        Debug.startRequest
          "http://www.gpsvisualizer.com/elevation_data/elev2018.js?coords=41.1618,-8.58393".toList] ∧
    QString.number Double.portoLat = "41.1618".toList ∧
    QString.number Double.portoLon = "-8.58393".toList ∧
    QString.toDouble "41.161758".toList = some Double.portoLat ∧
    QString.toDouble "41.1618".toList ≠ some Double.portoLat ∧
    QString.toDouble "-8.583933".toList = some Double.portoLon ∧
    QString.toDouble "-8.58393".toList ≠ some Double.portoLon := by
  decide

/-! ## Redirects -/

theorem outstanding_iff (self : appcontroller) :
    self.outstanding = true ↔
      ∃ r rep, self.reply = some r ∧ self.replies.get? r = some rep ∧ rep.deleteLater = false := by
  unfold appcontroller.outstanding
  constructor
  · intro h
    cases hr : self.reply with
    | none => rw [hr] at h; exact absurd h (by simp)
    | some r =>
      rw [hr] at h
      simp only at h
      cases hrep : self.replies.get? r with
      | none => rw [hrep] at h; exact absurd h (by simp)
      | some rep =>
        rw [hrep] at h
        exact ⟨r, rep, rfl, hrep, by simpa using h⟩
  · rintro ⟨r, rep, hr, hrep, hd⟩
    rw [hr]
    simp only
    rw [hrep]
    simp [hd]

theorem startrequest_outstanding (self : appcontroller) (url : QUrl) :
    (startrequest self url).1.outstanding = true := by
  rw [outstanding_iff]
  refine ⟨self.replies.length, ⟨url, [], none, none, false⟩, rfl, ?_, rfl⟩
  simp [startrequest]

/-- The slot `httpFinished` on the signal of the outstanding reply. -/
theorem deliver_finished_outstanding (resolved : QUrl → QUrl → QUrl) (self : appcontroller)
    (r : Nat) (rep : QNetworkReply) (target : Option QUrl)
    (hr : self.reply = some r) (hrep : self.replies.get? r = some rep)
    (hd : rep.deleteLater = false) :
    ∃ s out, deliver resolved self (.finished r target) = .ok s out ∧
      (match target with
       | some t => s.outstanding = true ∧ s.issued = self.issued + 1 ∧
           s.url = resolved self.url t ∧
           s.reply = some self.replies.length
       | none => s.reply = none ∧ s.issued = self.issued) := by
  have hlt : r < self.replies.length := by
    rw [List.get?_eq_getElem?] at hrep
    exact (List.getElem?_eq_some_iff.1 hrep).1
  cases target with
  | none =>
    simp only [deliver, appcontroller.signal, hrep, hd, Bool.false_eq_true, if_false,
      httpFinished, hr]
    rw [List.get?_eq_getElem?, List.getElem?_set_self hlt]
    exact ⟨_, _, rfl, rfl, by simp [appcontroller.issued]⟩
  | some t =>
    simp only [deliver, appcontroller.signal, hrep, hd, Bool.false_eq_true, if_false,
      httpFinished, hr]
    rw [List.get?_eq_getElem?, List.getElem?_set_self hlt]
    refine ⟨_, _, rfl, startrequest_outstanding _ _, ?_, rfl, ?_⟩
    · simp [appcontroller.issued, startrequest]
    · simp [startrequest]

/-- The runner against a server: every redirect answer is followed by one more GET. -/
theorem follow_issued (resolved : QUrl → QUrl → QUrl) (server : Nat → QUrl → Option QUrl) :
    ∀ (n : Nat) (self : appcontroller), self.outstanding = true →
      ∃ s out, follow resolved server n self = .ok s out ∧
        s.issued = self.issued + redirects resolved server n self.issued self.url ∧
        (redirects resolved server n self.issued self.url = n → s.outstanding = true) ∧
        (redirects resolved server n self.issued self.url < n → s.reply = none) := by
  intro n
  induction n with
  | zero =>
    intro self h
    exact ⟨self, [], rfl, rfl, fun _ => h, fun h0 => absurd h0 (Nat.lt_irrefl 0)⟩
  | succ n ih =>
    intro self h
    obtain ⟨r, rep, hr, hrep, hd⟩ := (outstanding_iff self).1 h
    obtain ⟨s1, out1, hs1, hpost⟩ :=
      deliver_finished_outstanding resolved self r rep (server self.issued self.url) hr hrep hd
    cases hsv : server self.issued self.url with
    | none =>
      rw [hsv] at hs1 hpost
      simp only at hpost
      refine ⟨s1, out1 ++ [], ?_, ?_, ?_, ?_⟩
      · cases n <;> simp [follow, hr, hsv, hs1, hpost.1]
      · simp [redirects, hsv, hpost.2]
      · simp [redirects, hsv]
      · intro _
        exact hpost.1
    | some t =>
      rw [hsv] at hs1 hpost
      simp only at hpost
      obtain ⟨s2, out2, hs2, hiss, hout, hidle⟩ := ih s1 hpost.1
      rw [hpost.2.1, hpost.2.2.1] at hiss hout hidle
      refine ⟨s2, out1 ++ out2, ?_, ?_, ?_, ?_⟩
      · simp [follow, hr, hsv, hs1, hs2]
      · simp only [redirects, hsv]
        rw [hiss]
        omega
      · intro hn
        simp only [redirects, hsv] at hn
        exact hout (by omega)
      · intro hn
        simp only [redirects, hsv] at hn
        exact hidle (by omega)

theorem redirects_redirectForever (resolved : QUrl → QUrl → QUrl) :
    ∀ (n k : Nat) (url : QUrl), redirects resolved redirectForever n k url = n := by
  intro n
  induction n with
  | zero => intro _ _; rfl
  | succ n ih => intro k url; simp [redirects, redirectForever, ih]

theorem redirects_redirectChain :
    ∀ (url : QUrl) (n k : Nat), url.length < n →
      redirects resolvedAbsolute redirectChain n k url = url.length := by
  intro url
  induction url with
  | nil =>
    intro n k hn
    cases n with
    | zero => exact absurd hn (Nat.lt_irrefl 0)
    | succ n => rfl
  | cons c cs ih =>
    intro n k hn
    cases n with
    | zero => exact absurd hn (Nat.not_lt_zero _)
    | succ n =>
      simp only [redirects, redirectChain, resolvedAbsolute, List.length_cons]
      rw [show redirects resolvedAbsolute redirectChain n (k + 1) cs = cs.length from
        ih n (k + 1) (by simpa using hn)]

/-- C8 as stated fails: no cap bounds the number of GET requests of one run; against a
server that redirects forever the runner issues one more GET after every reply. -/
theorem follow_has_no_redirect_cap :
    ¬ ∃ cap : Nat, ∀ (n : Nat) (s : appcontroller) (out : List Debug),
      follow resolvedAbsolute redirectForever n (startrequest appcontroller.idle []).1 =
        .ok s out → s.issued ≤ cap := by
  rintro ⟨cap, hcap⟩
  obtain ⟨s, out, hs, hiss, -, -⟩ :=
    follow_issued resolvedAbsolute redirectForever (cap + 1) _
      (startrequest_outstanding appcontroller.idle [])
  have h := hcap (cap + 1) s out hs
  rw [hiss, redirects_redirectForever] at h
  simp only [appcontroller.issued, startrequest, appcontroller.idle, List.nil_append,
    List.length_singleton] at h
  omega

/-- C8 (amended): the runner follows redirects without a cap. For every server, that is
for every sequence of answers, and every number `n` of completed replies of one run, the
run ends without a fault, the GET was issued once more for each redirect answer, a
request is still outstanding when all `n` answers were redirects, and none is when an
answer was final. -/
theorem follow_reissues_every_redirect (resolved : QUrl → QUrl → QUrl)
    (server : Nat → QUrl → Option QUrl) (n : Nat) (self : appcontroller)
    (h : self.outstanding = true) :
    ∃ s out, follow resolved server n self = .ok s out ∧
      s.issued = self.issued + redirects resolved server n self.issued self.url ∧
      (redirects resolved server n self.issued self.url = n → s.outstanding = true) ∧
      (redirects resolved server n self.issued self.url < n → s.reply = none) :=
  follow_issued resolved server n self h

/-- C8 (amended), for a chain of eleven redirects that ends in a final response: twelve
GET requests are issued and the run ends with no request outstanding. -/
theorem follow_reissues_every_redirect_witness :
    (startrequest appcontroller.idle "rrrrrrrrrrr".toList).1.outstanding = true ∧
    ∃ s out, follow resolvedAbsolute redirectChain 12
        (startrequest appcontroller.idle "rrrrrrrrrrr".toList).1 = .ok s out ∧
      s.issued = 12 ∧ s.reply = none := by
  refine ⟨by decide, ?_⟩
  obtain ⟨s, out, hs, hiss, -, hidle⟩ :=
    follow_reissues_every_redirect resolvedAbsolute redirectChain 12
      (startrequest appcontroller.idle "rrrrrrrrrrr".toList).1 (by decide)
  have hr : redirects resolvedAbsolute redirectChain 12
      (startrequest appcontroller.idle "rrrrrrrrrrr".toList).1.issued
      (startrequest appcontroller.idle "rrrrrrrrrrr".toList).1.url = 11 :=
    redirects_redirectChain "rrrrrrrrrrr".toList 12 _ (by decide)
  rw [hr] at hiss hidle
  exact ⟨s, out, hs, hiss, hidle (by decide)⟩

/-! ## A request started while another is outstanding -/

theorem startrequest_superseded (self : appcontroller) (url : QUrl) (r0 : Nat) (buffer : QString)
    (hlt : r0 < self.replies.length)
    (h : ∃ rep, self.replies.get? r0 = some rep ∧ rep.buffer = buffer ∧ rep.deleteLater = false) :
    (startrequest self url).1.superseded r0 buffer := by
  obtain ⟨rep, hrep, hb, hd⟩ := h
  refine ⟨?_, rep, ?_, hb, hd⟩
  · intro r hr
    simp only [startrequest, Option.some.injEq] at hr
    subst hr
    simp [startrequest, hlt]
  · simp only [startrequest, List.get?_eq_getElem?] at hrep ⊢
    rw [List.getElem?_append_left hlt]
    exact hrep

theorem superseded_lt (self : appcontroller) (r0 : Nat) (buffer : QString)
    (h : self.superseded r0 buffer) : r0 < self.replies.length := by
  obtain ⟨-, rep, hrep, -, -⟩ := h
  rw [List.get?_eq_getElem?] at hrep
  exact (List.getElem?_eq_some_iff.1 hrep).1

/-- The network changes a reply other than by reading it: the buffer of `r0` grows by
the bytes that arrive for it, and it stays superseded. -/
theorem signal_superseded (self self1 : appcontroller) (r0 r : Nat) (buffer extra : QString)
    (f : QNetworkReply → QNetworkReply)
    (hf : ∀ rep, (f rep).deleteLater = rep.deleteLater)
    (hb : ∀ rep, (f rep).buffer = rep.buffer ++ extra)
    (h : self.superseded r0 buffer) (hs : self.signal r f = some self1) :
    self1.superseded r0 (buffer ++ (if r = r0 then extra else [])) ∧ self1.reply = self.reply := by
  obtain ⟨hslot, rep0, hrep0, hbuf, hdel⟩ := h
  unfold appcontroller.signal at hs
  cases hrep : self.replies.get? r with
  | none => rw [hrep] at hs; exact absurd hs (by simp)
  | some rep =>
    rw [hrep] at hs
    by_cases hd : rep.deleteLater = true
    · simp [hd] at hs
    · simp only [hd, Bool.false_eq_true, if_false, Option.some.injEq] at hs
      subst hs
      refine ⟨⟨?_, ?_⟩, rfl⟩
      · intro rc hrc
        simpa using hslot rc hrc
      · by_cases hr : r = r0
        · subst hr
          rw [hrep0] at hrep
          cases hrep
          refine ⟨f rep0, ?_, ?_, ?_⟩
          · have hlt : r < self.replies.length := by
              rw [List.get?_eq_getElem?] at hrep0
              exact (List.getElem?_eq_some_iff.1 hrep0).1
            simp only [List.get?_eq_getElem?]
            rw [List.getElem?_set_self hlt]
          · rw [hb, hbuf, if_pos rfl]
          · rw [hf, hdel]
        · refine ⟨rep0, ?_, ?_, hdel⟩
          · simp only [List.get?_eq_getElem?] at hrep0 ⊢
            rw [List.getElem?_set_ne hr]
            exact hrep0
          · simp [hr, hbuf]

/-- The slot `httpReadyRead` leaves a superseded reply as it is. -/
theorem httpReadyRead_superseded (self s : appcontroller) (out : List Debug) (r0 : Nat)
    (buffer : QString) (h : self.superseded r0 buffer) (hs : httpReadyRead self = .ok s out) :
    s.superseded r0 buffer := by
  obtain ⟨hslot, rep0, hrep0, hbuf, hdel⟩ := h
  unfold httpReadyRead at hs
  cases hread : self.readAll with
  | error f => rw [hread] at hs; simp at hs
  | ok p =>
    obtain ⟨arr, self1⟩ := p
    have hself1 : self1.superseded r0 buffer := by
      unfold appcontroller.readAll at hread
      cases hr : self.reply with
      | none => rw [hr] at hread; simp at hread
      | some rc =>
        rw [hr] at hread
        simp only at hread
        cases hrc : self.replies.get? rc with
        | none => rw [hrc] at hread; simp at hread
        | some repc =>
          rw [hrc] at hread
          simp only [Except.ok.injEq, Prod.mk.injEq] at hread
          obtain ⟨-, rfl⟩ := hread
          have hne : rc ≠ r0 := by
            have := (hslot rc hr).1
            omega
          refine ⟨?_, rep0, ?_, hbuf, hdel⟩
          · intro r hr1
            simp only [Option.some.injEq] at hr1
            subst hr1
            simpa using hslot rc hr
          · simp only [List.get?_eq_getElem?] at hrep0 ⊢
            rw [List.getElem?_set_ne hne]
            exact hrep0
    rw [hread] at hs
    simp only at hs
    split_ifs at hs
    · split at hs
      · simp at hs
      · simp only [Outcome.ok.injEq] at hs
        rw [← hs.1]
        exact hself1
    · simp only [Outcome.ok.injEq] at hs
      rw [← hs.1]
      exact hself1
    · simp only [Outcome.ok.injEq] at hs
      rw [← hs.1]
      exact hself1

/-- The slot `httpFinished` leaves a superseded reply as it is. -/
theorem httpFinished_superseded (resolved : QUrl → QUrl → QUrl) (self s : appcontroller)
    (out : List Debug) (r0 : Nat) (buffer : QString) (h : self.superseded r0 buffer)
    (hs : httpFinished resolved self = .ok s out) : s.superseded r0 buffer := by
  have hlt0 := superseded_lt self r0 buffer h
  obtain ⟨hslot, rep0, hrep0, hbuf, hdel⟩ := h
  unfold httpFinished at hs
  cases hr : self.reply with
  | none => rw [hr] at hs; simp at hs
  | some rc =>
    rw [hr] at hs
    simp only at hs
    cases hrc : self.replies.get? rc with
    | none => rw [hrc] at hs; simp at hs
    | some repc =>
      rw [hrc] at hs
      simp only at hs
      have hne : rc ≠ r0 := by
        have := (hslot rc hr).1
        omega
      have hkeep : ∀ x : QNetworkReply, ∃ rep, (self.replies.set rc x).get? r0 =
          some rep ∧ rep.buffer = buffer ∧ rep.deleteLater = false := by
        intro x
        refine ⟨rep0, ?_, hbuf, hdel⟩
        simp only [List.get?_eq_getElem?] at hrep0 ⊢
        rw [List.getElem?_set_ne hne]
        exact hrep0
      cases ht : repc.redirectionTarget with
      | none =>
        rw [ht] at hs
        simp only [Outcome.ok.injEq] at hs
        rw [← hs.1]
        exact ⟨fun r hr1 => by simp at hr1, hkeep _⟩
      | some t =>
        rw [ht] at hs
        simp only [Outcome.ok.injEq] at hs
        rw [← hs.1]
        exact startrequest_superseded _ _ r0 buffer (by simpa using hlt0) (hkeep _)

/-- One event: a superseded reply stays superseded and keeps every byte it receives. -/
theorem deliver_superseded (resolved : QUrl → QUrl → QUrl) (self s : appcontroller)
    (out : List Debug) (r0 : Nat) (buffer : QString) (ev : Event)
    (h : self.superseded r0 buffer) (hs : deliver resolved self ev = .ok s out) :
    s.superseded r0 (buffer ++ arrived r0 [ev]) := by
  cases ev with
  | positionUpdated lat lon =>
    simp only [deliver, onPositionUpdated, requestElevation, requestElevationFrom,
      Outcome.ok.injEq] at hs
    rw [← hs.1]
    simp only [arrived, List.append_nil]
    exact startrequest_superseded _ _ r0 buffer (superseded_lt _ _ _ h) h.2
  | readyRead r bytes =>
    simp only [deliver] at hs
    cases hsig : self.signal r (fun rep => { rep with buffer := rep.buffer ++ bytes }) with
    | none =>
      rw [hsig] at hs
      simp only [Outcome.ok.injEq] at hs
      rw [← hs.1]
      have hne : r ≠ r0 := by
        rintro rfl
        obtain ⟨-, rep0, hrep0, -, hdel⟩ := h
        simp only [appcontroller.signal, hrep0, hdel, Bool.false_eq_true, if_false] at hsig
        exact absurd hsig (by simp)
      simpa [arrived, hne] using h
    | some self1 =>
      rw [hsig] at hs
      simp only at hs
      have h1 := (signal_superseded self self1 r0 r buffer bytes
        (fun rep => { rep with buffer := rep.buffer ++ bytes }) (fun _ => rfl)
        (fun _ => rfl) h hsig).1
      have h2 := httpReadyRead_superseded self1 s out r0 _ h1 hs
      by_cases hr : r = r0 <;> simpa [arrived, hr] using h2
  | error r errorString =>
    simp only [deliver] at hs
    cases hsig : self.signal r (fun rep => { rep with errorString := some errorString }) with
    | none =>
      rw [hsig] at hs
      simp only [Outcome.ok.injEq] at hs
      rw [← hs.1]
      simpa [arrived] using h
    | some self1 =>
      rw [hsig] at hs
      simp only at hs
      have h1 := (signal_superseded self self1 r0 r buffer []
        (fun rep => { rep with errorString := some errorString }) (fun _ => rfl)
        (fun rep => by simp) h hsig).1
      have h2 : s = self1 := by
        unfold httpError at hs
        split at hs
        · simp at hs
        · split at hs
          · simp at hs
          · simp only [Outcome.ok.injEq] at hs
            exact hs.1.symm
      rw [h2]
      simpa [arrived] using h1
  | finished r target =>
    simp only [deliver] at hs
    cases hsig : self.signal r (fun rep => { rep with redirectionTarget := target }) with
    | none =>
      rw [hsig] at hs
      simp only [Outcome.ok.injEq] at hs
      rw [← hs.1]
      simpa [arrived] using h
    | some self1 =>
      rw [hsig] at hs
      simp only at hs
      have h1 := (signal_superseded self self1 r0 r buffer []
        (fun rep => { rep with redirectionTarget := target }) (fun _ => rfl)
        (fun rep => by simp) h hsig).1
      have h2 := httpFinished_superseded resolved self1 s out r0 _ h1 hs
      simpa [arrived] using h2

theorem arrived_cons (r0 : Nat) (ev : Event) (evs : List Event) :
    arrived r0 (ev :: evs) = arrived r0 [ev] ++ arrived r0 evs := by
  cases ev <;> simp [arrived]
  split <;> simp

/-- A run: a superseded reply stays superseded and keeps every byte it receives. -/
theorem run_superseded (resolved : QUrl → QUrl → QUrl) (r0 : Nat) :
    ∀ (events : List Event) (self s : appcontroller) (out : List Debug) (buffer : QString),
      self.superseded r0 buffer → run resolved self events = .ok s out →
      s.superseded r0 (buffer ++ arrived r0 events) := by
  intro events
  induction events with
  | nil =>
    intro self s out buffer h hs
    simp only [run, Outcome.ok.injEq] at hs
    rw [← hs.1]
    simpa [arrived] using h
  | cons ev evs ih =>
    intro self s out buffer h hs
    simp only [run] at hs
    cases hd : deliver resolved self ev with
    | fault f => rw [hd] at hs; simp at hs
    | ok s1 out1 =>
      rw [hd] at hs
      simp only at hs
      cases hr : run resolved s1 evs with
      | fault f => rw [hr] at hs; simp at hs
      | ok s2 out2 =>
        rw [hr] at hs
        simp only [Outcome.ok.injEq] at hs
        rw [← hs.1, arrived_cons, ← List.append_assoc]
        exact ih s1 s2 out2 _ (deliver_superseded resolved self s1 out1 r0 buffer ev h hd) hr

/-! ## The number scanner -/

theorem dropWhile_isDigit_append_brace (t r : List Char) :
    (t ++ '}' :: r).dropWhile Char.isDigit = t.dropWhile Char.isDigit ++ '}' :: r := by
  induction t with
  | nil => rfl
  | cons x t ih =>
    by_cases hx : x.isDigit = true
    · simp [List.dropWhile, hx, ih]
    · simp [List.dropWhile, hx]

theorem dropChar_append_brace (c : Char) (hc : c ≠ '}') (t r : List Char) :
    dropChar c (t ++ '}' :: r) = dropChar c t ++ '}' :: r := by
  cases t with
  | nil => simp [dropChar, Ne.symm hc]
  | cons x t => by_cases hx : x = c <;> simp [dropChar, hx]

theorem dropSign_append_brace (t r : List Char) :
    dropSign (t ++ '}' :: r) = dropSign t ++ '}' :: r := by
  cases t with
  | nil => simp [dropSign]
  | cons x t => by_cases hx : x = '-' ∨ x = '+' <;> simp [dropSign, hx]

theorem numberIntEnd_append_brace (t r : List Char) :
    numberIntEnd (t ++ '}' :: r) = numberIntEnd t ++ '}' :: r := by
  unfold numberIntEnd
  rw [dropChar_append_brace _ (by decide)]
  cases dropChar '-' t with
  | nil => simp [List.dropWhile]
  | cons x u =>
    by_cases hx : x = '0'
    · simp [hx]
    · have := dropWhile_isDigit_append_brace (x :: u) r
      simp only [List.cons_append] at this
      simp only [List.cons_append, hx, if_false, this]

theorem numberFracEnd_append_brace (t r : List Char) :
    numberFracEnd (t ++ '}' :: r) = numberFracEnd t ++ '}' :: r := by
  cases t with
  | nil => simp [numberFracEnd]
  | cons x t =>
    by_cases hx : x = '.'
    · simp [numberFracEnd, hx, dropWhile_isDigit_append_brace]
    · simp [numberFracEnd, hx]

theorem numberExpEnd_append_brace (t r : List Char) :
    numberExpEnd (t ++ '}' :: r) = numberExpEnd t ++ '}' :: r := by
  cases t with
  | nil => simp [numberExpEnd]
  | cons x t =>
    by_cases hx : x = 'e' ∨ x = 'E'
    · simp only [List.cons_append, numberExpEnd, hx, if_true, dropSign_append_brace,
        dropWhile_isDigit_append_brace]
    · simp [numberExpEnd, hx]

/-- The scanner stops at a closing brace. -/
theorem numberEnd_append_brace (t r : List Char) :
    numberEnd (t ++ '}' :: r) = numberEnd t ++ '}' :: r := by
  unfold numberEnd
  rw [numberIntEnd_append_brace, numberFracEnd_append_brace, numberExpEnd_append_brace]

/-- A character that cannot start a number is not scanned. -/
theorem numberEnd_cons_of_not_number (x : Char) (t : List Char) (h1 : x.isDigit = false)
    (h2 : x ≠ '-') (h3 : x ≠ '.') (h4 : x ≠ 'e') (h5 : x ≠ 'E') :
    numberEnd (x :: t) = x :: t := by
  have h0 : x ≠ '0' := by
    rintro rfl
    exact absurd h1 (by decide)
  simp [numberEnd, numberIntEnd, numberFracEnd, numberExpEnd, dropChar, h0, h1, h2, h3, h4, h5,
    List.dropWhile]

/-- A number that is followed by a closing brace: the token is all the scanner reads,
and it is an integer token when the integer part is all of it. -/
theorem parseNumber_append_brace (t r : List Char) (h : numberEnd t = []) :
    parseNumber (t ++ '}' :: r) =
      match numberValue t (decide (numberIntEnd t = [])) with
      | some d => some (.double d, '}' :: r)
      | none => none := by
  have e1 : numberEnd (t ++ '}' :: r) = '}' :: r := by
    rw [numberEnd_append_brace, h, List.nil_append]
  have e2 : (t ++ '}' :: r).take ((t ++ '}' :: r).length - ('}' :: r).length) = t := by
    have : (t ++ '}' :: r).length - ('}' :: r).length = t.length := by
      simp
    rw [this, List.take_left']
    rfl
  have e3 : decide ((numberIntEnd (t ++ '}' :: r)).length = ('}' :: r).length) =
      decide (numberIntEnd t = []) := by
    rw [numberIntEnd_append_brace]
    cases numberIntEnd t with
    | nil => simp
    | cons x u =>
      have hne : ¬ ((x :: u ++ '}' :: r).length = ('}' :: r).length) := by
        simp only [List.cons_append, List.length_cons, List.length_append]
        omega
      rw [decide_eq_false hne]
      simp
  unfold parseNumber
  simp only [e1, e2, e3]

/-! ## Parsing a `results` document -/

theorem parseValue_bracket (fuel level : Nat) (r : List Char) :
    parseValue (fuel + 1) level ('[' :: r) = parseArray fuel level r := by
  simp [parseValue]

theorem parseValue_brace (fuel level : Nat) (r : List Char) :
    parseValue (fuel + 1) level ('\x7b' :: r) = parseObject fuel level r := by
  simp [parseValue]

/-- A value that starts with a character of a number is parsed as a number. -/
theorem parseValue_number (fuel level : Nat) (x : Char) (r : List Char)
    (hx : x.isDigit = true ∨ x = '-' ∨ x = '.' ∨ x = 'e' ∨ x = 'E') :
    parseValue (fuel + 1) level (x :: r) = parseNumber (x :: r) := by
  have h1 : x ≠ 'n' := by rintro rfl; revert hx; decide
  have h2 : x ≠ 't' := by rintro rfl; revert hx; decide
  have h3 : x ≠ 'f' := by rintro rfl; revert hx; decide
  have h4 : x ≠ '"' := by rintro rfl; revert hx; decide
  have h5 : x ≠ '[' := by rintro rfl; revert hx; decide
  have h6 : x ≠ '\x7b' := by rintro rfl; revert hx; decide
  have h7 : x ≠ ',' := by rintro rfl; revert hx; decide
  have h8 : x ≠ '\x7d' := by rintro rfl; revert hx; decide
  have h9 : x ≠ ']' := by rintro rfl; revert hx; decide
  simp [parseValue, h1, h2, h3, h4, h5, h6, h7, h8, h9]

theorem parseString_results (r : List Char) :
    parseString ("results\"".toList ++ r) = some ("results".toList, r) := by
  simp [parseString]

theorem parseString_elevation (r : List Char) :
    parseString ("elevation\"".toList ++ r) = some ("elevation".toList, r) := by
  simp [parseString]

theorem number_start (x : Char) (t : List Char) (h : numberEnd (x :: t) = []) :
    x.isDigit = true ∨ x = '-' ∨ x = '.' ∨ x = 'e' ∨ x = 'E' := by
  by_contra hc
  simp only [not_or] at hc
  obtain ⟨h1, h2, h3, h4, h5⟩ := hc
  rw [numberEnd_cons_of_not_number x t (by simpa using h1) h2 h3 h4 h5] at h
  exact absurd h (by simp)

theorem eatSpace_number_start (x : Char) (r : List Char)
    (hx : x.isDigit = true ∨ x = '-' ∨ x = '.' ∨ x = 'e' ∨ x = 'E') :
    eatSpace (x :: r) = x :: r := by
  have h1 : x ≠ ' ' := by rintro rfl; revert hx; decide
  have h2 : x ≠ '\t' := by rintro rfl; revert hx; decide
  have h3 : x ≠ '\n' := by rintro rfl; revert hx; decide
  have h4 : x ≠ '\r' := by rintro rfl; revert hx; decide
  simp [eatSpace, List.dropWhile, h1, h2, h3, h4]

theorem eatSpace_cons (c : Char) (r : List Char)
    (hc : (c = ' ' || c = '\t' || c = '\n' || c = '\r') = false) :
    eatSpace (c :: r) = c :: r := by
  simp only [eatSpace, List.dropWhile]
  simp only [Bool.or_eq_false_iff, decide_eq_false_iff_not] at hc
  simp [hc]

/-- An object with a single member whose value ends at the closing brace. -/
theorem parseObject_single (fuel level : Nat) (hl : level < 1024) (s r1 r2 r4 : List Char)
    (ch : Char) (key : QString) (v : QJsonValue)
    (hkey : parseString s = some (key, ':' :: r1))
    (hsp : eatSpace r1 = ch :: r2)
    (hv : parseValue fuel (level + 1) (ch :: r2) = some (v, '\x7d' :: r4)) :
    parseObject (fuel + 2) level ('"' :: s) = some (.object [(key, v)], eatSpace r4) := by
  have h1 : eatSpace ('"' :: s) = '"' :: s := eatSpace_cons _ _ (by decide)
  have h2 : eatSpace (':' :: r1) = ':' :: r1 := eatSpace_cons _ _ (by decide)
  have h3 : eatSpace ('\x7d' :: r4) = '\x7d' :: r4 := eatSpace_cons _ _ (by decide)
  have h4 : ¬ (1024 < level + 1) := by omega
  rw [parseObject]
  simp only [h1, h4, if_false]
  rw [parseMembers]
  simp only [hkey, h2, hsp, hv, h3]
  simp [QJsonObject.insert, QJsonObject.contains]

/-- An array with a single item that ends at the closing bracket. -/
theorem parseArray_single (fuel level : Nat) (hl : level < 1024) (c : Char) (r r2 : List Char)
    (v : QJsonValue) (hc : (c = ' ' || c = '\t' || c = '\n' || c = '\r') = false)
    (hb : c ≠ ']')
    (hv : parseValue fuel (level + 1) (c :: r) = some (v, ']' :: r2)) :
    parseArray (fuel + 2) level (c :: r) = some (.array [v], eatSpace r2) := by
  have h1 : eatSpace (c :: r) = c :: r := eatSpace_cons _ _ hc
  have h3 : eatSpace (']' :: r2) = ']' :: r2 := eatSpace_cons _ _ (by decide)
  have h4 : ¬ (1024 < level + 1) := by omega
  rw [parseArray]
  simp only [h1, h4, if_false, hb]
  rw [parseElements]
  simp only [h1, hv, h3]
  simp

/-- The document `{"results":[{"elevation": <number>}]}`. -/
theorem fromJson_results_elevation (x : Char) (t : List Char) (d : Double)
    (hend : numberEnd (x :: t) = [])
    (hval : numberValue (x :: t) (decide (numberIntEnd (x :: t) = [])) = some d) :
    QJsonDocument.fromJson ("\x7b\"results\":[\x7b\"elevation\": ".toList ++ (x :: t) ++
        "\x7d]\x7d".toList) =
      some (.object [("results".toList, .array [.object [("elevation".toList, .double d)]])]) := by
  have hx := number_start x t hend
  have e3 : parseNumber (x :: (t ++ '\x7d' :: ']' :: ['\x7d'])) =
      some (.double d, '\x7d' :: ']' :: ['\x7d']) := by
    have := parseNumber_append_brace (x :: t) (']' :: ['\x7d']) hend
    rw [hval] at this
    simpa using this
  have hspace : ∀ r, eatSpace (' ' :: x :: r) = x :: r := by
    intro r
    have := eatSpace_number_start x r hx
    simpa [eatSpace, List.dropWhile] using this
  obtain ⟨k, hk⟩ : ∃ k, 2 * ("\x7b\"results\":[\x7b\"elevation\": ".toList ++ (x :: t) ++
      "\x7d]\x7d".toList).length + 2 = k + 9 := ⟨2 * t.length + 53, by simp; omega⟩
  have inner : parseObject (k + 3) 2
      ('"' :: ("elevation\"".toList ++ ':' :: ' ' :: x :: (t ++ '\x7d' :: ']' :: ['\x7d']))) =
      some (.object [("elevation".toList, .double d)], ']' :: ['\x7d']) := by
    have := parseObject_single (k + 1) 2 (by decide)
      ("elevation\"".toList ++ ':' :: ' ' :: x :: (t ++ '\x7d' :: ']' :: ['\x7d']))
      (' ' :: x :: (t ++ '\x7d' :: ']' :: ['\x7d'])) (t ++ '\x7d' :: ']' :: ['\x7d'])
      (']' :: ['\x7d']) x "elevation".toList (.double d) (parseString_elevation _) (hspace _)
      (by rw [parseValue_number _ _ _ _ hx, e3])
    rw [this, eatSpace_cons _ _ (by decide)]
  have arr : parseArray (k + 6) 1
      ('\x7b' :: '"' :: ("elevation\"".toList ++
        ':' :: ' ' :: x :: (t ++ '\x7d' :: ']' :: ['\x7d']))) =
      some (.array [.object [("elevation".toList, .double d)]], ['\x7d']) := by
    have := parseArray_single (k + 4) 1 (by decide) '\x7b'
      ('"' :: ("elevation\"".toList ++ ':' :: ' ' :: x :: (t ++ '\x7d' :: ']' :: ['\x7d'])))
      ['\x7d'] (.object [("elevation".toList, .double d)]) (by decide) (by decide)
      (by rw [parseValue_brace, inner])
    rw [this, eatSpace_cons _ _ (by decide)]
  have outer : parseObject (k + 9) 0
      ('"' :: ("results\"".toList ++ ':' :: '[' :: '\x7b' :: '"' :: ("elevation\"".toList ++
        ':' :: ' ' :: x :: (t ++ '\x7d' :: ']' :: ['\x7d'])))) =
      some (.object [("results".toList,
        .array [.object [("elevation".toList, .double d)]])], []) := by
    have := parseObject_single (k + 7) 0 (by decide)
      ("results\"".toList ++ ':' :: '[' :: '\x7b' :: '"' :: ("elevation\"".toList ++
        ':' :: ' ' :: x :: (t ++ '\x7d' :: ']' :: ['\x7d'])))
      ('[' :: '\x7b' :: '"' :: ("elevation\"".toList ++
        ':' :: ' ' :: x :: (t ++ '\x7d' :: ']' :: ['\x7d'])))
      ('\x7b' :: '"' :: ("elevation\"".toList ++
        ':' :: ' ' :: x :: (t ++ '\x7d' :: ']' :: ['\x7d'])))
      [] '[' "results".toList (.array [.object [("elevation".toList, .double d)]])
      (parseString_results _) (eatSpace_cons _ _ (by decide))
      (by rw [parseValue_bracket, arr])
    rw [this]
    rfl
  have ebody : "\x7b\"results\":[\x7b\"elevation\": ".toList ++ (x :: t) ++ "\x7d]\x7d".toList =
      '\x7b' :: '"' :: ("results\"".toList ++ ':' :: '[' :: '\x7b' :: '"' ::
        ("elevation\"".toList ++ ':' :: ' ' :: x :: (t ++ '\x7d' :: ']' :: ['\x7d']))) := by
    simp
  unfold QJsonDocument.fromJson
  simp only [hk]
  rw [ebody, eatSpace_cons _ _ (by decide)]
  simp only [outer]
  simp [eatSpace]

/-! ## Integer tokens -/

theorem dropWhile_isSpace_of_all (s : List Char) (h : ∀ c ∈ s, isSpace c = false) :
    s.dropWhile isSpace = s := by
  cases s with
  | nil => rfl
  | cons x r => simp [List.dropWhile, h x (by simp)]

theorem trimmed_of_all (s : QString) (h : ∀ c ∈ s, isSpace c = false) :
    QString.trimmed s = s := by
  unfold QString.trimmed
  rw [dropWhile_isSpace_of_all s h,
    dropWhile_isSpace_of_all s.reverse (fun c hc => h c (List.mem_reverse.1 hc)),
    List.reverse_reverse]

theorem toLower_of_isDigit (c : Char) (h : c.isDigit = true) : c.toLower = c := by
  simp only [Char.isDigit, Bool.and_eq_true, decide_eq_true_eq] at h
  have h2 : c.val.toNat ≤ 57 := h.2
  unfold Char.toLower
  simp only [Char.toNat]
  rw [if_neg]
  intro hc
  omega

theorem takeWhile_isDigit_of_all (ds : List Char) (h : ∀ c ∈ ds, c.isDigit = true) :
    ds.takeWhile Char.isDigit = ds := by
  induction ds with
  | nil => rfl
  | cons x r ih =>
    simp [List.takeWhile, h x (by simp), ih (fun c hc => h c (by simp [hc]))]

theorem dropWhile_isDigit_of_all (ds : List Char) (h : ∀ c ∈ ds, c.isDigit = true) :
    ds.dropWhile Char.isDigit = [] := by
  induction ds with
  | nil => rfl
  | cons x r ih =>
    simp [List.dropWhile, h x (by simp), ih (fun c hc => h c (by simp [hc]))]

/-- The conversion of a run of digits with an optional minus sign. -/
theorem toDouble_int_token (neg : Bool) (ds : List Char) (hds : ∀ c ∈ ds, c.isDigit = true)
    (hne : ds ≠ []) :
    QString.toDouble ((if neg = true then ['-'] else []) ++ ds) =
      match Double.ofRatio neg (digitsValue 0 ds) 1 with
      | .fin sg man ex =>
        if man = 0 ∧ digitsValue 0 ds ≠ 0 then none else some (.fin sg man ex)
      | _ => none := by
  have hchars : ∀ c ∈ (if neg = true then ['-'] else []) ++ ds, c.isDigit = true ∨ c = '-' := by
    intro c hc
    cases neg <;> simp at hc
    · exact Or.inl (hds c hc)
    · rcases hc with rfl | hc
      · exact Or.inr rfl
      · exact Or.inl (hds c hc)
  have hsp : ∀ c ∈ (if neg = true then ['-'] else []) ++ ds, isSpace c = false := by
    intro c hc
    rcases hchars c hc with h | rfl
    · by_contra hs
      simp only [isSpace, Bool.not_eq_false, Bool.or_eq_true, decide_eq_true_eq] at hs
      rcases hs with ((((rfl | rfl) | rfl) | rfl) | rfl) | rfl <;> revert h <;> decide
    · decide
  have hlow : ((if neg = true then ['-'] else []) ++ ds).map Char.toLower =
      (if neg = true then ['-'] else []) ++ ds := by
    have : ∀ l : List Char, (∀ c ∈ l, c.isDigit = true ∨ c = '-') → l.map Char.toLower = l := by
      intro l hl
      induction l with
      | nil => rfl
      | cons x r ih =>
        have hx : x.toLower = x := by
          rcases hl x (by simp) with h | rfl
          · exact toLower_of_isDigit x h
          · decide
        simp [hx, ih (fun c hc => hl c (by simp [hc]))]
    exact this _ hchars
  have hnot : ∀ w : List Char, (∃ c ∈ w, c.isDigit = false ∧ c ≠ '-') →
      (if neg = true then ['-'] else []) ++ ds ≠ w := by
    rintro w ⟨c, hc, h1, h2⟩ rfl
    rcases hchars c hc with h | h
    · rw [h] at h1
      exact absurd h1 (by decide)
    · exact h2 h
  have hparts : decimalParts ((if neg = true then ['-'] else []) ++ ds) =
      some (neg, digitsValue 0 ds, 0) := by
    obtain ⟨x, r, rfl⟩ : ∃ x r, ds = x :: r := by
      cases ds with
      | nil => exact absurd rfl hne
      | cons x r => exact ⟨x, r, rfl⟩
    have hx : x.isDigit = true := hds x (by simp)
    have hx1 : x ≠ '-' := by rintro rfl; revert hx; decide
    have hx2 : x ≠ '+' := by rintro rfl; revert hx; decide
    have hsign : takeSign ((if neg = true then ['-'] else []) ++ x :: r) = (neg, x :: r) := by
      cases neg <;> simp [takeSign, hx1, hx2]
    unfold decimalParts
    rw [hsign]
    simp only [takeWhile_isDigit_of_all _ hds, dropWhile_isDigit_of_all _ hds]
    simp [exponentPart]
  unfold QString.toDouble
  rw [trimmed_of_all _ hsp, hlow]
  rw [if_neg (hnot _ ⟨'n', by decide, by decide, by decide⟩),
    if_neg (by
      rintro (h | h)
      · exact hnot _ ⟨'i', by decide, by decide, by decide⟩ h
      · exact hnot _ ⟨'i', by decide, by decide, by decide⟩ h),
    if_neg (hnot _ ⟨'i', by decide, by decide, by decide⟩), hparts]
  simp [Double.ofDecimal]

/-- The value the parser gives a number token is the double `toDouble` gives it, but
for the sign of a zero written as the integer `-0`. -/
theorem numberValue_of_toDouble (t : List Char) (e : Double)
    (he : QString.toDouble t = some e) :
    ∃ d, numberValue t (decide (numberIntEnd t = [])) = some d ∧
      (d = e ∨ (e = Double.fin true 0 (-1074) ∧ d = Double.zero)) := by
  unfold numberValue
  simp only [decide_eq_true_eq]
  by_cases hint : numberIntEnd t = [] ∧ dropChar '-' t ≠ [] ∧ digitsValue 0 (dropChar '-' t) < 2 ^ 25
  · rw [if_pos hint]
    obtain ⟨hI, hne, -⟩ := hint
    have hds : ∀ c ∈ dropChar '-' t, c.isDigit = true := by
      unfold numberIntEnd at hI
      cases hd : dropChar '-' t with
      | nil => simp
      | cons x r =>
        rw [hd] at hI
        simp only at hI
        by_cases hx : x = '0'
        · rw [if_pos hx] at hI
          subst hI
          subst hx
          simp
        · rw [if_neg hx] at hI
          intro c hc
          exact (List.dropWhile_eq_nil_iff.1 hI) c hc
    have ht : t = (if (decide (t.head? = some '-')) = true then ['-'] else []) ++ dropChar '-' t := by
      cases t with
      | nil => simp [dropChar]
      | cons x r => by_cases hx : x = '-' <;> simp [dropChar, hx]
    rw [ht, toDouble_int_token _ _ hds hne] at he
    generalize hv : digitsValue 0 (dropChar '-' t) = v at he ⊢
    generalize hn : decide (t.head? = some '-') = neg at he ⊢
    refine ⟨_, rfl, ?_⟩
    have hof : Double.ofRatio neg v 1 = e := by
      cases hr : Double.ofRatio neg v 1 with
      | nan => rw [hr] at he; simp at he
      | inf s => rw [hr] at he; simp at he
      | fin sg man ex =>
        rw [hr] at he
        simp only at he
        split_ifs at he
        exact Option.some.inj he
    cases neg with
    | false =>
      left
      have hp : ¬ t.head? = some '-' := of_decide_eq_false hn
      rw [← hof]
      have : ¬ ((v : Int) < 0) := by omega
      simp [Double.ofInt, hp, this]
    | true =>
      have hp : t.head? = some '-' := of_decide_eq_true hn
      by_cases hz : v = 0
      · right
        subst hz
        rw [← hof]
        refine ⟨rfl, ?_⟩
        simp only [hp, if_true, Nat.cast_zero, neg_zero]
        rfl
      · left
        rw [← hof]
        have : (-(v : Int) < 0) := by omega
        simp [Double.ofInt, hp, this]
  · rw [if_neg hint]
    exact ⟨e, he, Or.inl rfl⟩

/-! ## JSON numbers -/

theorem numberExpEnd_of_isJsonExp (s : List Char) (h : isJsonExp s = true) :
    numberExpEnd s = [] := by
  cases s with
  | nil => rfl
  | cons x r =>
    simp only [isJsonExp, Bool.and_eq_true, Bool.or_eq_true, decide_eq_true_eq, bne_iff_ne,
      ne_eq, List.all_eq_true] at h
    obtain ⟨hx, -, hall⟩ := h
    simp only [numberExpEnd, hx, if_true]
    exact dropWhile_isDigit_of_all _ hall

theorem numberFracExpEnd_of_isJsonFrac (s : List Char) (h : isJsonFrac s = true) :
    numberExpEnd (numberFracEnd s) = [] := by
  cases s with
  | nil => rfl
  | cons x r =>
    by_cases hx : x = '.'
    · simp only [isJsonFrac, hx, if_true, Bool.and_eq_true] at h
      simp only [numberFracEnd, hx, if_true]
      exact numberExpEnd_of_isJsonExp _ h.2
    · simp only [isJsonFrac, hx, if_false] at h
      simp only [numberFracEnd, hx, if_false]
      exact numberExpEnd_of_isJsonExp _ h

/-- The scanner reads a JSON number to its end. -/
theorem numberEnd_of_isJsonNumber (s : List Char) (h : isJsonNumber s = true) :
    numberEnd s = [] := by
  unfold isJsonNumber at h
  unfold numberEnd numberIntEnd
  cases hd : dropChar '-' s with
  | nil => rw [hd] at h; simp at h
  | cons x r =>
    rw [hd] at h
    simp only at h ⊢
    by_cases hx : x = '0'
    · rw [if_pos hx] at h ⊢
      exact numberFracExpEnd_of_isJsonFrac _ h
    · rw [if_neg hx] at h ⊢
      simp only [Bool.and_eq_true] at h
      simp only [List.dropWhile, h.1]
      exact numberFracExpEnd_of_isJsonFrac _ h.2

/-- The JSON branch takes the elevation from the `elevation` member of the first item of
`results`, whatever else the document holds. -/
theorem jsonBranch_first_result (body : QString) (root members : List (QString × QJsonValue))
    (rest : List QJsonValue) (d : Double)
    (hdoc : QJsonDocument.fromJson body = some (.object root))
    (hres : QJsonObject.value root "results".toList = .array (.object members :: rest))
    (hcont : QJsonObject.contains members "elevation".toList = true)
    (hval : QJsonObject.value members "elevation".toList = .double d) :
    jsonBranch body = elevationChanged d := by
  unfold jsonBranch
  rw [hdoc]
  dsimp only
  rw [hres]
  have e0 : QJsonArray.at (QJsonValue.array (QJsonValue.object members :: rest)).toArray 0 =
      QJsonValue.object members := rfl
  have e1 : (QJsonValue.object members).toObject = members := rfl
  have e2 : (QJsonValue.array (QJsonValue.object members :: rest)).isArray = true := rfl
  have e3 : 0 < (QJsonValue.array (QJsonValue.object members :: rest)).toArray.length ∧
      (QJsonValue.object members).isObject = true := ⟨Nat.succ_pos _, rfl⟩
  rw [e0, if_pos e2, if_pos e3, e1, if_pos hcont, hval]
  rfl

/-- C4: for every JSON number `token` that `toDouble` converts to `e`, the body
`{"results":[{"elevation": token}]}` parses to the document with that one result, and
the slot forwards its `elevation` to `elevationChanged`. The elevation forwarded is `e`;
only when `e` is the negative zero and written as the integer `-0` it is `+0.0`, which is
the same number. -/
theorem httpReadyRead_json_round_trip (self self1 : appcontroller) (token : QString)
    (e : Double)
    (hread : self.readAll = .ok ("\x7b\"results\":[\x7b\"elevation\": ".toList ++ token ++
      "\x7d]\x7d".toList, self1))
    (hnum : isJsonNumber token = true)
    (he : QString.toDouble token = some e) :
    ∃ d, httpReadyRead self = .ok self1 (elevationChanged d) ∧
      QJsonDocument.fromJson ("\x7b\"results\":[\x7b\"elevation\": ".toList ++ token ++
        "\x7d]\x7d".toList) =
        some (.object [("results".toList, .array [.object [("elevation".toList, .double d)]])]) ∧
      (d = e ∨ (e = Double.fin true 0 (-1074) ∧ d = Double.zero)) := by
  have hend : numberEnd token = [] := numberEnd_of_isJsonNumber token hnum
  obtain ⟨d, hd, hde⟩ := numberValue_of_toDouble token e he
  obtain ⟨x, t, rfl⟩ : ∃ x t, token = x :: t := by
    cases token with
    | nil =>
      have h0 : QString.toDouble [] = none := by decide
      rw [h0] at he
      exact absurd he (by simp)
    | cons x t => exact ⟨x, t, rfl⟩
  have hdoc := fromJson_results_elevation x t d hend hd
  refine ⟨d, ?_, hdoc, hde⟩
  have hb : QString.startsWith ("\x7b\"results\":[\x7b\"elevation\": ".toList ++ (x :: t) ++
      "\x7d]\x7d".toList) "\x7b".toList = true :=
    (QString.startsWith_iff _ _).2 ⟨"\"results\":[\x7b\"elevation\": ".toList ++ (x :: t) ++
      "\x7d]\x7d".toList, by simp⟩
  rw [httpReadyRead_of_readAll _ _ _ hread, not_callback_of_brace _ hb, if_pos hb]
  simp only [Bool.false_eq_true, if_false]
  rw [jsonBranch_first_result _ _ [("elevation".toList, .double d)] [] d hdoc rfl rfl rfl]

/-- C4, at the body `{"results":[{"elevation": 12.5}]}`. -/
theorem httpReadyRead_json_round_trip_witness :
    isJsonNumber "12.5".toList = true ∧
    QString.toDouble "12.5".toList = some (Double.ofDecimal false 125 (-1)) ∧
    ∃ d, httpReadyRead (appcontroller.receiving
        "\x7b\"results\":[\x7b\"elevation\": 12.5\x7d]\x7d".toList) =
        .ok (appcontroller.receiving []) (elevationChanged d) ∧
      QJsonDocument.fromJson "\x7b\"results\":[\x7b\"elevation\": 12.5\x7d]\x7d".toList =
        some (.object [("results".toList, .array [.object [("elevation".toList, .double d)]])]) ∧
      (d = Double.ofDecimal false 125 (-1) ∨
        (Double.ofDecimal false 125 (-1) = Double.fin true 0 (-1074) ∧ d = Double.zero)) :=
  ⟨by decide, by decide,
   httpReadyRead_json_round_trip
    (appcontroller.receiving "\x7b\"results\":[\x7b\"elevation\": 12.5\x7d]\x7d".toList)
    (appcontroller.receiving []) "12.5".toList (Double.ofDecimal false 125 (-1))
    (by rfl) (by decide) (by decide)⟩

/-! ## Two requests -/

/-- C9 as stated fails: with a second request started while the first is outstanding,
the `finished` signal of the first reply runs `httpFinished` on the second reply, which
is handed to `deleteLater` while the slot is cleared; and once the slot is null, a
`readyRead` signal of the first reply makes the slot dereference the null pointer. -/
theorem first_reply_events_act_on_second :
    deliver resolvedAbsolute
        (startrequest (startrequest appcontroller.idle "a".toList).1 "b".toList).1
        (.finished 0 none) =
      .ok ⟨none, "b".toList,
          [⟨"a".toList, [], none, none, false⟩, ⟨"b".toList, [], none, none, true⟩]⟩
        [Debug.requestFinished] ∧
    run resolvedAbsolute
        (startrequest (startrequest appcontroller.idle "a".toList).1 "b".toList).1
        [.finished 1 none, .readyRead 0 "x".toList] =
      .fault Fault.nullPointer := by
  decide

/-- C9 (amended): after `startrequest` is called while the reply `r0` of an earlier
request is outstanding, through every run of events that ends without a fault the reply
slot never points to `r0` again and no slot reads from `r0`: every byte that arrives
for `r0` stays unread in its buffer, so the response of the earlier request is never
parsed or forwarded. -/
theorem superseded_reply_never_read (resolved : QUrl → QUrl → QUrl) (self s : appcontroller)
    (r0 : Nat) (rep0 : QNetworkReply) (url2 : QUrl) (events : List Event) (out : List Debug)
    (hr : self.reply = some r0) (hrep : self.replies.get? r0 = some rep0)
    (hd : rep0.deleteLater = false)
    (hrun : run resolved (startrequest self url2).1 events = .ok s out) :
    (startrequest self url2).1.reply ≠ self.reply ∧
    s.reply ≠ some r0 ∧
    ∃ rep, s.replies.get? r0 = some rep ∧
      rep.buffer = rep0.buffer ++ arrived r0 events ∧ rep.deleteLater = false := by
  have hlt : r0 < self.replies.length := by
    rw [List.get?_eq_getElem?] at hrep
    exact (List.getElem?_eq_some_iff.1 hrep).1
  have h0 : (startrequest self url2).1.superseded r0 rep0.buffer :=
    startrequest_superseded self url2 r0 rep0.buffer hlt ⟨rep0, hrep, rfl, hd⟩
  obtain ⟨hslot, rep, h1, h2, h3⟩ := run_superseded resolved r0 events _ s out _ h0 hrun
  refine ⟨?_, ?_, rep, h1, h2, h3⟩
  · rw [hr]
    simp only [startrequest, ne_eq, Option.some.injEq]
    omega
  · intro hs
    exact Nat.lt_irrefl _ (hslot r0 hs).1

/-- C9 (amended), for two requests and a response to each: the response of the first
stays unread, the response of the second is parsed. -/
theorem superseded_reply_never_read_witness :
    run resolvedAbsolute (startrequest (startrequest appcontroller.idle "a".toList).1 "b".toList).1
        [.readyRead 0 "LocalElevationCallback(0.25,'first')".toList,
         .readyRead 1 "LocalElevationCallback(0.5,'second')".toList] =
      .ok ⟨some 1, "b".toList,
          [⟨"a".toList, "LocalElevationCallback(0.25,'first')".toList, none, none, false⟩,
           ⟨"b".toList, [], none, none, false⟩]⟩
        [Debug.otherData [], Debug.elevationDataSource "second".toList,
          Debug.elevationChanged Double.two] ∧
    (startrequest (startrequest appcontroller.idle "a".toList).1 "b".toList).1.reply ≠
      (startrequest appcontroller.idle "a".toList).1.reply ∧
    (⟨some 1, "b".toList,
          [⟨"a".toList, "LocalElevationCallback(0.25,'first')".toList, none, none, false⟩,
           ⟨"b".toList, [], none, none, false⟩]⟩ : appcontroller).reply ≠ some 0 ∧
    ∃ rep, (⟨some 1, "b".toList,
          [⟨"a".toList, "LocalElevationCallback(0.25,'first')".toList, none, none, false⟩,
           ⟨"b".toList, [], none, none, false⟩]⟩ : appcontroller).replies.get? 0 = some rep ∧
      rep.buffer = [] ++ arrived 0
        [.readyRead 0 "LocalElevationCallback(0.25,'first')".toList,
         .readyRead 1 "LocalElevationCallback(0.5,'second')".toList] ∧
      rep.deleteLater = false :=
  ⟨by decide,
   superseded_reply_never_read resolvedAbsolute (startrequest appcontroller.idle "a".toList).1 _
    0 ⟨"a".toList, [], none, none, false⟩ "b".toList
    [.readyRead 0 "LocalElevationCallback(0.25,'first')".toList,
     .readyRead 1 "LocalElevationCallback(0.5,'second')".toList]
    [Debug.otherData [], Debug.elevationDataSource "second".toList,
      Debug.elevationChanged Double.two]
    (by rfl) (by rfl) (by rfl) (by decide)⟩

end SeaLevel
